import Mathlib

/-!
# Verification of the aipolitician-data retrieval core

This development gives a shallow embedding, in Lean 4, of the retrieval core of
the `aipolitician-data` repository: the entry normalizer of
`src/formatter/data_formatter.py` (`PoliticianDataFormatter`) and the search
utility of `src/scraper/search_utility.py` (`PoliticianDataSearch`), and proves
or refutes the specification claims about them.

Modelling conventions:
* Python `str` is modelled as `List Char` (`PyStr`); `lower()` is per-character
  lowering (all concrete inputs are ASCII, where this coincides with Python).
* Arbitrary JSON-like Python values are modelled by `PyVal`; Python dicts are
  insertion-ordered association lists with string keys (every key arising from
  `json.load` in these sources is a string).
* Code that can raise is modelled in `Except PyErr`; an `Except.error` value
  models an uncaught Python exception propagating out of the function.
* Numbers are exact fractions `Frac` (numerator/positive denominator, not
  normalized).  Python/numpy floats produced by the code are modelled exactly:
  either `nan` (numpy's `0.0/0.0` raises no exception, it yields `nan` with a
  `RuntimeWarning`), `inf`/`ninf`, or the exact real number `n / √d` recorded
  as `ratio n d` (`d` is the square of the denominator, kept exact so that
  comparisons of cosine scores `dot/(‖a‖·‖b‖)` are decidable).  Rounding of
  IEEE doubles is not modelled; all claim-relevant comparisons are between
  exactly representable values.
* External capabilities (uuid, wall-clock time, NLTK sentence tokenization,
  the SpaCy/dateutil extraction pipeline, the sentence-transformer embedding
  model) are parameters of the embedding, bundled in `Oracles`.
-/

namespace AIPol

/-! ## Python strings -/

/-- Python strings as character lists. -/
abbrev PyStr := List Char

/-- Python whitespace characters recognised by `str.strip`/`str.split`
(ASCII subset; all inputs in this development are ASCII). -/
def pyIsWS (c : Char) : Bool :=
  c = ' ' || c = '\t' || c = '\n' || c = '\x0d' || c = '\x0b' || c = '\x0c'

/-- `str.lower`, per character (ASCII-faithful). -/
def pyLower (s : PyStr) : PyStr := s.map Char.toLower

/-- Leading-whitespace strip. -/
def stripL (s : PyStr) : PyStr := s.dropWhile (pyIsWS ·)

/-- `str.strip()`: drop leading and trailing whitespace. -/
def pyStrip (s : PyStr) : PyStr := (stripL ((stripL s).reverse)).reverse

/-- Is `p` a prefix of `s`? (boolean, used to model substring search). -/
def chPrefix : List Char → List Char → Bool
  | [], _ => true
  | _ :: _, [] => false
  | a :: as, b :: bs => a == b && chPrefix as bs

/-- Python `needle in hay` on strings: substring containment
(the empty needle is contained in everything). -/
def chSub (needle : PyStr) : PyStr → Bool
  | [] => chPrefix needle []
  | c :: rest => chPrefix needle (c :: rest) || chSub needle rest

/-- Python `str.split()` with no argument: split on whitespace runs,
dropping empty fields.  `acc` holds the current word, reversed. -/
def splitWsAux : List Char → List Char → List PyStr
  | [], acc => if acc.isEmpty then [] else [acc.reverse]
  | c :: rest, acc =>
    if pyIsWS c then
      if acc.isEmpty then splitWsAux rest [] else acc.reverse :: splitWsAux rest []
    else
      splitWsAux rest (c :: acc)

def pySplitWs (s : PyStr) : List PyStr := splitWsAux s []

/-! ## Exact fractions

`Frac` is an unnormalized integer fraction.  Every fraction built by the
embedded code has a positive denominator (`Frac.wf`); arithmetic is standard
cross multiplication.  `Frac.toQ` interprets a fraction in `ℚ` and is used
only inside proofs (Mathlib's `ℚ` numerals do not reduce in the kernel, so
the executable embedding works on `Frac` directly). -/

structure Frac where
  num : Int
  den : Int
  deriving DecidableEq, Repr

namespace Frac

/-- Interpretation in `ℚ` (proofs only). -/
def toQ (f : Frac) : ℚ := (f.num : ℚ) / (f.den : ℚ)

/-- Positive denominator: the invariant of every fraction the code builds. -/
def wf (f : Frac) : Prop := 0 < f.den

instance : DecidablePred wf := fun f => inferInstanceAs (Decidable (0 < f.den))

def ofInt (n : Int) : Frac := ⟨n, 1⟩

instance : OfNat Frac n := ⟨ofInt n⟩

def add (a b : Frac) : Frac := ⟨a.num * b.den + b.num * a.den, a.den * b.den⟩

def mul (a b : Frac) : Frac := ⟨a.num * b.num, a.den * b.den⟩

def sq (a : Frac) : Frac := mul a a

/-- Value equality (for positive denominators). -/
def eq (a b : Frac) : Bool := a.num * b.den = b.num * a.den

/-- Value strict order (for positive denominators). -/
def lt (a b : Frac) : Bool := a.num * b.den < b.num * a.den

def le (a b : Frac) : Bool := lt a b || eq a b

theorem wf_ofInt (n : Int) : wf (ofInt n) := Int.zero_lt_one

theorem wf_add {a b : Frac} (ha : a.wf) (hb : b.wf) : (add a b).wf := mul_pos ha hb

theorem wf_mul {a b : Frac} (ha : a.wf) (hb : b.wf) : (mul a b).wf := mul_pos ha hb

theorem wf_sq {a : Frac} (ha : a.wf) : (sq a).wf := wf_mul ha ha

theorem toQ_ofInt (n : Int) : (ofInt n).toQ = (n : ℚ) := by
  simp [toQ, ofInt]

theorem den_pos_q {a : Frac} (ha : a.wf) : (0 : ℚ) < (a.den : ℚ) := by
  exact_mod_cast ha

theorem toQ_mul {a b : Frac} (ha : a.wf) (hb : b.wf) :
    (mul a b).toQ = a.toQ * b.toQ := by
  have h1 := (den_pos_q ha).ne'
  have h2 := (den_pos_q hb).ne'
  simp only [toQ, mul]
  push_cast
  field_simp

theorem toQ_add {a b : Frac} (ha : a.wf) (hb : b.wf) :
    (add a b).toQ = a.toQ + b.toQ := by
  have h1 := (den_pos_q ha).ne'
  have h2 := (den_pos_q hb).ne'
  simp only [toQ, add]
  push_cast
  field_simp

theorem toQ_sq {a : Frac} (ha : a.wf) : (sq a).toQ = a.toQ ^ 2 := by
  rw [sq, toQ_mul ha ha, pow_two]

theorem lt_iff {a b : Frac} (ha : a.wf) (hb : b.wf) :
    lt a b = true ↔ a.toQ < b.toQ := by
  have h1 := den_pos_q ha
  have h2 := den_pos_q hb
  simp only [lt, toQ, decide_eq_true_eq, div_lt_div_iff₀ h1 h2]
  exact_mod_cast Iff.rfl

theorem eq_iff {a b : Frac} (ha : a.wf) (hb : b.wf) :
    eq a b = true ↔ a.toQ = b.toQ := by
  have h1 := (den_pos_q ha).ne'
  have h2 := (den_pos_q hb).ne'
  simp only [eq, toQ, decide_eq_true_eq, div_eq_div_iff h1 h2]
  exact_mod_cast Iff.rfl

theorem le_iff {a b : Frac} (ha : a.wf) (hb : b.wf) :
    le a b = true ↔ a.toQ ≤ b.toQ := by
  simp only [le, Bool.or_eq_true, lt_iff ha hb, eq_iff ha hb, le_iff_lt_or_eq]

end Frac

/-! ## Python values -/

/-- Python exceptions that the embedded code can raise. -/
inductive PyErr
  | typeError
  | attributeError
  | keyError
  | valueError
  deriving DecidableEq, Repr

/-- JSON-like Python values (the shape of everything `json.load` returns,
plus `bool`/`null`).  Numbers carry an exact fraction. -/
inductive PyVal
  | str (s : PyStr)
  | num (q : Frac)
  | bool (b : Bool)
  | null
  | list (xs : List PyVal)
  | dict (kvs : List (PyStr × PyVal))

namespace PyVal

/- Structural equality test, modelling Python `==` on JSON values. -/
mutual
def beq : PyVal → PyVal → Bool
  | .str a, .str b => a == b
  | .num a, .num b => a == b
  | .bool a, .bool b => a == b
  | .null, .null => true
  | .list a, .list b => beqList a b
  | .dict a, .dict b => beqKVs a b
  | _, _ => false

def beqList : List PyVal → List PyVal → Bool
  | [], [] => true
  | a :: as, b :: bs => beq a b && beqList as bs
  | _, _ => false

def beqKVs : List (PyStr × PyVal) → List (PyStr × PyVal) → Bool
  | [], [] => true
  | (k, v) :: as, (k', v') :: bs => k == k' && beq v v' && beqKVs as bs
  | _, _ => false
end

instance : BEq PyVal := ⟨beq⟩

/-- Python truthiness. -/
def truthy : PyVal → Bool
  | .str s => !s.isEmpty
  | .num q => q.num ≠ 0
  | .bool b => b
  | .null => false
  | .list xs => !xs.isEmpty
  | .dict kvs => !kvs.isEmpty

/-- Association-list lookup (first binding wins; keys are unique in every
dict produced by `json.load`). -/
def lookup (kvs : List (PyStr × PyVal)) (k : PyStr) : Option PyVal :=
  match kvs with
  | [] => none
  | (k', v) :: rest => if k' = k then some v else lookup rest k

/-- Python `key in value` (with a string key, the only form the sources use):
dict → key membership, str → substring test, list → element equality,
everything else → `TypeError` (argument not iterable). -/
def pyIn (container : PyVal) (key : PyStr) : Except PyErr Bool :=
  match container with
  | .dict kvs => .ok ((lookup kvs key).isSome)
  | .str s => .ok (chSub key s)
  | .list xs => .ok (xs.any (fun x => beq x (.str key)))
  | _ => .error .typeError

/-- Python `value[key]` with a string key: dict → lookup (`KeyError` when
absent), anything else → `TypeError` (string/list indices must be integers). -/
def subscript (container : PyVal) (key : PyStr) : Except PyErr PyVal :=
  match container with
  | .dict kvs =>
    match lookup kvs key with
    | some v => .ok v
    | none => .error .keyError
  | _ => .error .typeError

/-- Python `value.get(key, default)`: only dicts have `.get`, anything else
raises `AttributeError`. -/
def pyGet (container : PyVal) (key : PyStr) (dflt : PyVal) : Except PyErr PyVal :=
  match container with
  | .dict kvs => .ok ((lookup kvs key).getD dflt)
  | _ => .error .attributeError

/-- Python iteration `for x in v`: list → elements, str → characters (as
1-char strings), dict → keys, anything else → `TypeError`. -/
def pyIter : PyVal → Except PyErr (List PyVal)
  | .list xs => .ok xs
  | .str s => .ok (s.map fun c => .str [c])
  | .dict kvs => .ok (kvs.map fun kv => .str kv.1)
  | _ => .error .typeError

/-- Python `len(v)`. -/
def pyLen : PyVal → Except PyErr Nat
  | .list xs => .ok xs.length
  | .str s => .ok s.length
  | .dict kvs => .ok kvs.length
  | _ => .error .typeError

/-- Python `v.lower()`: only strings have `.lower`. -/
def pyLowerV : PyVal → Except PyErr PyStr
  | .str s => .ok (pyLower s)
  | _ => .error .attributeError

/-- Python `v.items()`: only dicts have `.items`. -/
def pyItems : PyVal → Except PyErr (List (PyStr × PyVal))
  | .dict kvs => .ok kvs
  | _ => .error .attributeError

end PyVal

/-- Decimal digits of a natural number. -/
def natDigits (n : Nat) : PyStr := Nat.toDigits 10 n

/-- A simple textual rendering of a fraction (decimal for integers,
`num/den` otherwise).  Stands in for Python `str()` on numbers; no claim
depends on the exact digits. -/
def fracRepr (q : Frac) : PyStr :=
  (if q.num < 0 then ['-'] else []) ++ natDigits q.num.natAbs ++
    (if q.den = 1 then [] else ['/'] ++ natDigits q.den.natAbs)

/- Python `str(v)`, as used by f-string interpolation in the sources.
For strings it is the string itself; containers get a bracketed rendering
(the exact inner `repr` format is immaterial to every claim). -/
mutual
def pyStrOf : PyVal → PyStr
  | .str s => s
  | .num q => fracRepr q
  | .bool b => if b then "True".toList else "False".toList
  | .null => "None".toList
  | .list xs => ['['] ++ pyStrOfList xs ++ [']']
  | .dict kvs => ['<'] ++ pyStrOfKVs kvs ++ ['>']

def pyStrOfList : List PyVal → PyStr
  | [] => []
  | x :: xs => pyStrOf x ++ pyStrOfList xs

def pyStrOfKVs : List (PyStr × PyVal) → PyStr
  | [] => []
  | (k, v) :: kvs => k ++ pyStrOf v ++ pyStrOfKVs kvs
end

/-! ## The float model -/

/-- Exact model of the Python/numpy floats produced by the embedded code.
`ratio n d` stands for the real number `n / Real.sqrt d` and is only built
with positive-denominator fractions and `0 < d` in value; plain fraction
values `q` appear as `ratio q 1`. -/
inductive PyFloat
  | nan
  | inf
  | ninf
  | ratio (num : Frac) (denSq : Frac)
  deriving DecidableEq, Repr

namespace PyFloat

/-- The float `0.0`. -/
def zero : PyFloat := .ratio 0 1

/-- `n₁/√d₁ < n₂/√d₂` for positive `d₁ d₂`, decided by sign analysis and
squaring (cross-multiplying by `√(d₁·d₂) > 0`). -/
def ltR (n₁ d₁ n₂ d₂ : Frac) : Bool :=
  if (Frac.lt n₁ 0) then (Frac.le 0 n₂) || (Frac.lt (Frac.mul (Frac.sq n₂) d₁) (Frac.mul (Frac.sq n₁) d₂))
  else (Frac.le 0 n₂) && (Frac.lt (Frac.mul (Frac.sq n₁) d₂) (Frac.mul (Frac.sq n₂) d₁))

/-- Python `<` on floats: any comparison with `nan` is `False`. -/
def lt : PyFloat → PyFloat → Bool
  | .nan, _ => false
  | _, .nan => false
  | .ninf, .ninf => false
  | .ninf, _ => true
  | _, .ninf => false
  | .inf, _ => false
  | .ratio _ _, .inf => true
  | .ratio n₁ d₁, .ratio n₂ d₂ => ltR n₁ d₁ n₂ d₂

/-- Value equality of two modelled floats (`nan` equals nothing, as in
IEEE). -/
def valEq : PyFloat → PyFloat → Bool
  | .ratio n₁ d₁, .ratio n₂ d₂ =>
    Frac.eq (Frac.mul (Frac.sq n₁) d₂) (Frac.mul (Frac.sq n₂) d₁) &&
      (Frac.le 0 n₁ == Frac.le 0 n₂)
  | .inf, .inf => true
  | .ninf, .ninf => true
  | _, _ => false

/-- `x ≤ y` in value (strictly below, or equal in value). -/
def le (x y : PyFloat) : Bool := lt x y || valEq x y

/-- Python `x > 0.5`, the similarity threshold test of `search_*`:
`n/√d > 1/2 ↔ 0 < n ∧ d < 4·n²` for `0 < d`. -/
def gtHalf : PyFloat → Bool
  | .nan => false
  | .inf => true
  | .ninf => false
  | .ratio n d => Frac.lt 0 n && Frac.lt d (Frac.mul 4 (Frac.sq n))

/-- Python `x > 0.3`, the relevance threshold test of `keyword_search`:
`n/√d > 3/10 ↔ 0 < n ∧ 9·d < 100·n²` for `0 < d`. -/
def gtPoint3 : PyFloat → Bool
  | .nan => false
  | .inf => true
  | .ninf => false
  | .ratio n d => Frac.lt 0 n && Frac.lt (Frac.mul 9 d) (Frac.mul 100 (Frac.sq n))

/-- A modelled float is `valid` when it is not `nan` and any `ratio` has
well-formed components with a positive squared denominator; every float
reaching the result sort in the sources is valid. -/
def valid : PyFloat → Prop
  | .nan => False
  | .ratio n d => n.wf ∧ d.wf ∧ 0 < d.num
  | _ => True

instance : DecidablePred valid := fun f =>
  match f with
  | .nan => .isFalse id
  | .inf => .isTrue trivial
  | .ninf => .isTrue trivial
  | .ratio n d => inferInstanceAs (Decidable (n.wf ∧ d.wf ∧ 0 < d.num))

end PyFloat

/-! ## Cosine similarity (`search_utility.py` 113–132) -/

/-- Exact dot product of two fraction vectors (`np.dot` on equal-length
1-D arrays). -/
def dotF : List Frac → List Frac → Frac
  | [], _ => 0
  | _, [] => 0
  | a :: as, b :: bs => Frac.add (Frac.mul a b) (dotF as bs)

/-- Sum of squares of a vector: the square of `np.linalg.norm`. -/
def normSq (v : List Frac) : Frac := dotF v v

/--
Embedding of `PoliticianDataSearch.cosine_similarity`
(`src/scraper/search_utility.py` lines 113–132) on the pure-vector case
(`None`, or a numeric list of equal or unequal length, on each side):
* either argument `None` → `0.0`;
* `np.dot` on arrays of different lengths raises `ValueError`, which the
  `except` clause catches, returning `0.0`;
* otherwise numpy computes `dot / (‖a‖·‖b‖)`.  When the denominator is `0.0`
  this is an IEEE `0.0/0.0 = nan` (or `±inf` if the numerator were nonzero):
  numpy emits a `RuntimeWarning` but raises no exception, so the `except`
  clause does *not* fire and the `nan` is returned.
-/
def cosineCore (a b : List Frac) : PyFloat :=
  if a.length ≠ b.length then .zero
  else
    let d := dotF a b
    let n2 := Frac.mul (normSq a) (normSq b)
    if Frac.eq n2 0 then
      if Frac.eq d 0 then .nan else if Frac.lt 0 d then .inf else .ninf
    else .ratio d n2

def cosine_similarity (e₁ e₂ : Option (List Frac)) : PyFloat :=
  match e₁, e₂ with
  | none, _ => .zero
  | _, none => .zero
  | some a, some b => cosineCore a b

/-! ## The chunker (`data_formatter.py` 283–299)

`add_wikipedia_entries` splits `sent_tokenize(full_content)` into chunks with
the loop of lines 287–299.  Sentence segmentation is an external capability
(NLTK), so the chunker is embedded as a function on the sentence list. -/

/-- The chunking loop of `add_wikipedia_entries`: `cc` is `current_chunk`
(always either empty or ending in the `" "` appended after each sentence)
and `chunks` the accumulator.  The literal `1000` is hard-coded in the
source (`if len(current_chunk) + len(sentence) < 1000`). -/
def chunkLoop : List PyStr → PyStr → List PyStr → List PyStr
  | [], cc, chunks => if cc.isEmpty then chunks else chunks ++ [pyStrip cc]
  | s :: rest, cc, chunks =>
    if cc.length + s.length < 1000 then
      chunkLoop rest (cc ++ s ++ [' ']) chunks
    else
      chunkLoop rest (s ++ [' '])
        (if cc.isEmpty then chunks else chunks ++ [pyStrip cc])

/-- The chunk sequence produced for a given sentence segmentation. -/
def chunkSentences (sentences : List PyStr) : List PyStr := chunkLoop sentences [] []

/-! ### Strip lemmas -/

theorem length_stripL_le (s : PyStr) : (stripL s).length ≤ s.length :=
  (List.dropWhile_sublist (pyIsWS ·)).length_le

theorem length_pyStrip_le (s : PyStr) : (pyStrip s).length ≤ s.length := by
  unfold pyStrip
  calc (stripL ((stripL s).reverse)).reverse.length
      = (stripL ((stripL s).reverse)).length := List.length_reverse _
    _ ≤ (stripL s).reverse.length := length_stripL_le _
    _ = (stripL s).length := List.length_reverse _
    _ ≤ s.length := length_stripL_le s

theorem stripL_append_space (s : PyStr) :
    stripL (s ++ [' ']) = if (stripL s).isEmpty then [] else stripL s ++ [' '] := by
  unfold stripL
  rw [List.dropWhile_append]
  split
  · decide
  · rfl

theorem pyStrip_append_space (s : PyStr) : pyStrip (s ++ [' ']) = pyStrip s := by
  unfold pyStrip
  rw [stripL_append_space]
  by_cases h : (stripL s).isEmpty = true
  · rw [if_pos h]
    rw [List.isEmpty_iff] at h
    rw [h]
  · rw [if_neg h]
    simp only [List.reverse_append, List.reverse_cons, List.reverse_nil, List.nil_append,
      List.singleton_append]
    have h2 : stripL (' ' :: (stripL s).reverse) = stripL ((stripL s).reverse) := by
      simp [stripL, List.dropWhile_cons, pyIsWS]
    rw [h2]

/-- A string is `clean` when it is nonempty and neither starts nor ends with
whitespace (the hypothesis of the chunk-reassembly claim). -/
def noEdgeWS (s : PyStr) : Bool :=
  match s.head?, s.getLast? with
  | some c₁, some c₂ => !pyIsWS c₁ && !pyIsWS c₂
  | _, _ => false

theorem noEdgeWS_ne_nil {s : PyStr} (h : noEdgeWS s = true) : s ≠ [] := by
  intro hnil
  subst hnil
  simp [noEdgeWS] at h

theorem stripL_eq_self {s : PyStr} (h : ∀ c ∈ s.head?, pyIsWS c = false) :
    stripL s = s := by
  cases s with
  | nil => rfl
  | cons c t =>
    have := h c (by simp)
    simp [stripL, List.dropWhile_cons, this]

theorem pyStrip_of_noEdgeWS {s : PyStr} (h : noEdgeWS s = true) : pyStrip s = s := by
  unfold noEdgeWS at h
  cases hh : s.head? with
  | none => rw [hh] at h; simp at h
  | some c₁ =>
    cases hl : s.getLast? with
    | none => rw [hh, hl] at h; simp at h
    | some c₂ =>
      rw [hh, hl] at h
      simp only [Bool.and_eq_true, Bool.not_eq_true'] at h
      unfold pyStrip
      have e1 : stripL s = s :=
        stripL_eq_self (fun c hc => by rw [hh] at hc; cases hc; exact h.1)
      rw [e1]
      have e2 : stripL s.reverse = s.reverse :=
        stripL_eq_self (fun c hc => by
          rw [List.head?_reverse, hl] at hc; cases hc; exact h.2)
      rw [e2, List.reverse_reverse]

/-! ### C6: chunk length bound -/

/-- Invariant on `current_chunk` during the loop: empty, short enough, or a
single (possibly oversized) sentence of the input plus the trailing space. -/
def GoodCC (ss : List PyStr) (cc : PyStr) : Prop :=
  cc = [] ∨ cc.length ≤ 1000 ∨ ∃ s ∈ ss, cc = s ++ [' ']

/-- What C6 asserts of an emitted chunk: within the limit, or the strip of a
single over-limit sentence of the input. -/
def OkChunk (ss : List PyStr) (c : PyStr) : Prop :=
  c.length ≤ 1000 ∨ ∃ s ∈ ss, c = pyStrip s ∧ 1000 < s.length

theorem emit_ok {ss : List PyStr} {cc : PyStr} {chunks : List PyStr}
    (hcc : GoodCC ss cc) (hch : ∀ c ∈ chunks, OkChunk ss c) :
    ∀ c ∈ (if cc.isEmpty then chunks else chunks ++ [pyStrip cc]), OkChunk ss c := by
  split
  · exact hch
  · intro c hc
    rcases List.mem_append.1 hc with h | h
    · exact hch c h
    · rcases List.mem_singleton.1 h with rfl
      rcases hcc with rfl | hlen | ⟨s, hs, rfl⟩
      · simp at *
      · exact Or.inl ((length_pyStrip_le cc).trans hlen)
      · by_cases hbig : 1000 < s.length
        · exact Or.inr ⟨s, hs, pyStrip_append_space s, hbig⟩
        · refine Or.inl ?_
          rw [pyStrip_append_space s]
          exact (length_pyStrip_le s).trans (Nat.le_of_not_lt hbig)

theorem chunkLoop_ok {ss : List PyStr} :
    ∀ (rest : List PyStr) (cc : PyStr) (chunks : List PyStr),
      (∀ s ∈ rest, s ∈ ss) → GoodCC ss cc → (∀ c ∈ chunks, OkChunk ss c) →
      ∀ c ∈ chunkLoop rest cc chunks, OkChunk ss c := by
  intro rest
  induction rest with
  | nil =>
    intro cc chunks _ hcc hch
    exact emit_ok hcc hch
  | cons s rest ih =>
    intro cc chunks hmem hcc hch
    unfold chunkLoop
    split
    · rename_i hfit
      refine ih _ _ (fun t ht => hmem t (List.mem_cons_of_mem s ht)) ?_ hch
      refine Or.inr (Or.inl ?_)
      simp only [List.append_assoc, List.length_append, List.length_singleton]
      omega
    · refine ih _ _ (fun t ht => hmem t (List.mem_cons_of_mem s ht)) ?_ (emit_ok hcc hch)
      exact Or.inr (Or.inr ⟨s, hmem s (List.mem_cons_self s rest), rfl⟩)

/-- **C6.**  Every chunk emitted by the chunking loop of
`add_wikipedia_entries` has length at most the hard-coded limit of 1000
characters, except that a chunk may be (the strip of) a single sentence of
the input that is itself longer than 1000 characters — such a sentence
becomes its own oversized chunk, neither truncated nor dropped; and an
empty sentence sequence (as produced by tokenizing empty input) yields no
chunks at all. -/
theorem C6_chunk_length_bound :
    (∀ (sentences : List PyStr), ∀ c ∈ chunkSentences sentences,
        c.length ≤ 1000 ∨ ∃ s ∈ sentences, c = pyStrip s ∧ 1000 < s.length) ∧
      chunkSentences [] = [] := by
  constructor
  · intro sentences c hc
    exact chunkLoop_ok sentences [] [] (fun _ h => h) (Or.inl rfl) (by simp) c hc
  · rfl

/-- Witness for C6 at a concrete input: a two-sentence text is packed into
one 5-character chunk, within the bound. -/
theorem C6_chunk_length_bound_witness :
    "ab cd".toList.length ≤ 1000 ∨
      ∃ s ∈ ["ab".toList, "cd".toList],
        "ab cd".toList = pyStrip s ∧ 1000 < s.length :=
  C6_chunk_length_bound.1 ["ab".toList, "cd".toList] "ab cd".toList (by decide)

/-! ### C7: chunk reassembly -/

/-- Join two strings with a single space, skipping empty sides (the shape in
which the loop accumulates `current_chunk` contents). -/
def sj (a b : PyStr) : PyStr :=
  if a.isEmpty then b else if b.isEmpty then a else a ++ ' ' :: b

/-- Right fold of `sj`: equals joining with single spaces on lists of
nonempty strings (`intercalate_eq_joinS`). -/
def joinS (l : List PyStr) : PyStr := l.foldr sj []

theorem sj_nil_left (b : PyStr) : sj [] b = b := rfl

theorem sj_nil_right (a : PyStr) : sj a [] = a := by
  cases a <;> simp [sj]

theorem sj_assoc (a b c : PyStr) : sj (sj a b) c = sj a (sj b c) := by
  cases a <;> cases b <;> cases c <;> simp [sj]

theorem joinS_nil : joinS [] = [] := rfl

theorem joinS_cons (x : PyStr) (l : List PyStr) : joinS (x :: l) = sj x (joinS l) := rfl

theorem joinS_single (x : PyStr) : joinS [x] = x := by
  rw [joinS_cons, joinS_nil, sj_nil_right]

theorem joinS_append (l₁ l₂ : List PyStr) :
    joinS (l₁ ++ l₂) = sj (joinS l₁) (joinS l₂) := by
  induction l₁ with
  | nil => simp [joinS, sj]
  | cons a t ih =>
    simp only [List.cons_append, joinS_cons, ih, sj_assoc]

theorem noEdgeWS_iff {s : PyStr} :
    noEdgeWS s = true ↔
      ∃ c₁ c₂, s.head? = some c₁ ∧ s.getLast? = some c₂ ∧
        pyIsWS c₁ = false ∧ pyIsWS c₂ = false := by
  unfold noEdgeWS
  cases hh : s.head? <;> cases hl : s.getLast? <;>
    simp [Bool.and_eq_true, Bool.not_eq_true']

theorem ne_nil_of_noEdgeWS {s : PyStr} (h : noEdgeWS s = true) : s ≠ [] :=
  noEdgeWS_ne_nil h

theorem noEdgeWS_sj {a b : PyStr} (ha : noEdgeWS a = true) (hb : noEdgeWS b = true) :
    noEdgeWS (sj a b) = true := by
  obtain ⟨c₁, c₂, ha1, ha2, ha3, ha4⟩ := noEdgeWS_iff.1 ha
  obtain ⟨d₁, d₂, hb1, hb2, hb3, hb4⟩ := noEdgeWS_iff.1 hb
  have hane : a ≠ [] := ne_nil_of_noEdgeWS ha
  have hbne : b ≠ [] := ne_nil_of_noEdgeWS hb
  have : sj a b = a ++ ' ' :: b := by
    simp [sj, List.isEmpty_iff, hane, hbne]
  rw [this]
  refine noEdgeWS_iff.2 ⟨c₁, d₂, ?_, ?_, ha3, hb4⟩
  · rw [List.head?_append, ha1]; rfl
  · rw [List.getLast?_append]
    have : (' ' :: b).getLast? = some d₂ := by
      obtain ⟨b₀, bt, rfl⟩ := List.exists_cons_of_ne_nil hbne
      rw [List.getLast?_cons_cons, hb2]
    rw [this]; rfl

theorem joinS_noEdgeWS {g : List PyStr} (hne : g ≠ [])
    (h : ∀ s ∈ g, noEdgeWS s = true) : noEdgeWS (joinS g) = true := by
  induction g with
  | nil => exact absurd rfl hne
  | cons a t ih =>
    cases t with
    | nil =>
      rw [joinS_single]
      exact h a (by simp)
    | cons b tt =>
      rw [joinS_cons]
      exact noEdgeWS_sj (h a (by simp))
        (ih (by simp) (fun s hs => h s (List.mem_cons_of_mem a hs)))

/-- `current_chunk` as a function of the group `g` of sentences currently
merged into it: empty for the empty group, otherwise the space-joined group
plus the trailing `" "` the loop appends after every sentence. -/
def preOf (g : List PyStr) : PyStr :=
  if g.isEmpty then [] else joinS g ++ [' ']

theorem preOf_nil : preOf [] = [] := rfl

theorem preOf_ne_nil {g : List PyStr} (h : g ≠ []) : preOf g ≠ [] := by
  simp only [preOf, List.isEmpty_iff, if_neg h]
  simp

theorem pyStrip_preOf {g : List PyStr} (h : ∀ s ∈ g, noEdgeWS s = true) :
    pyStrip (preOf g) = joinS g := by
  by_cases hg : g = []
  · subst hg; rfl
  · simp only [preOf, List.isEmpty_iff, if_neg hg]
    rw [pyStrip_append_space, pyStrip_of_noEdgeWS (joinS_noEdgeWS hg h)]

theorem preOf_single {s : PyStr} : preOf [s] = s ++ [' '] := by
  simp [preOf, joinS, sj_nil_right]

theorem preOf_snoc {g : List PyStr} {s : PyStr}
    (hg : ∀ t ∈ g, noEdgeWS t = true) (hs : noEdgeWS s = true) :
    preOf g ++ s ++ [' '] = preOf (g ++ [s]) := by
  by_cases hgn : g = []
  · subst hgn
    rw [preOf_nil, preOf_single.symm]
    simp [preOf_single]
  · have h1 : joinS g ≠ [] := ne_nil_of_noEdgeWS (joinS_noEdgeWS hgn hg)
    have h2 : s ≠ [] := ne_nil_of_noEdgeWS hs
    have e : joinS (g ++ [s]) = joinS g ++ ' ' :: s := by
      rw [joinS_append]
      show sj (joinS g) (sj s []) = _
      rw [sj_nil_right]
      simp [sj, List.isEmpty_iff, h1, h2]
    simp only [preOf, List.isEmpty_iff, if_neg hgn, if_neg (by simp : g ++ [s] ≠ []), e]
    simp

theorem chunkLoop_acc : ∀ (rest : List PyStr) (cc : PyStr) (chunks : List PyStr),
    chunkLoop rest cc chunks = chunks ++ chunkLoop rest cc [] := by
  intro rest
  induction rest with
  | nil =>
    intro cc chunks
    unfold chunkLoop
    by_cases h : cc.isEmpty = true <;> simp [h]
  | cons s rest ih =>
    intro cc chunks
    unfold chunkLoop
    split
    · rw [ih (cc ++ s ++ [' ']) chunks, ih (cc ++ s ++ [' ']) []]
    · by_cases h : cc.isEmpty = true
      · rw [if_pos h, if_pos h]
        rw [ih (s ++ [' ']) chunks, ih (s ++ [' ']) []]
      · rw [if_neg h, if_neg h]
        rw [ih (s ++ [' ']) (chunks ++ [pyStrip cc]), ih (s ++ [' ']) ([] ++ [pyStrip cc])]
        simp

theorem chunkLoop_join : ∀ (rest : List PyStr) (g : List PyStr),
    (∀ s ∈ rest, noEdgeWS s = true) → (∀ s ∈ g, noEdgeWS s = true) →
    joinS (chunkLoop rest (preOf g) []) = sj (joinS g) (joinS rest) := by
  intro rest
  induction rest with
  | nil =>
    intro g _ hg
    unfold chunkLoop
    by_cases hgn : g = []
    · subst hgn; rfl
    · have : (preOf g).isEmpty = false := by
        simp [List.isEmpty_iff, preOf_ne_nil hgn]
      rw [this]
      simp only [Bool.false_eq_true, if_false, List.nil_append]
      rw [pyStrip_preOf hg]
      rw [show joinS [joinS g] = joinS g from sj_nil_right _]
      exact (sj_nil_right _).symm
  | cons s rest ih =>
    intro g hrest hg
    have hs : noEdgeWS s = true := hrest s (by simp)
    have hrest' : ∀ t ∈ rest, noEdgeWS t = true :=
      fun t ht => hrest t (List.mem_cons_of_mem s ht)
    have hgs : ∀ t ∈ g ++ [s], noEdgeWS t = true := by
      intro t ht
      rcases List.mem_append.1 ht with h | h
      · exact hg t h
      · rcases List.mem_singleton.1 h with rfl; exact hs
    have h1s : ∀ t ∈ [s], noEdgeWS t = true := by
      intro t ht; rcases List.mem_singleton.1 ht with rfl; exact hs
    unfold chunkLoop
    split
    · rw [preOf_snoc hg hs]
      rw [ih (g ++ [s]) hrest' hgs]
      rw [joinS_append]
      simp only [joinS_cons, joinS_nil, joinS_single, sj_nil_right]
      rw [sj_assoc]
    · rw [chunkLoop_acc, joinS_append,
        show s ++ [' '] = preOf [s] from preOf_single.symm,
        ih [s] hrest' h1s]
      by_cases hgn : g = []
      · subst hgn
        simp only [preOf_nil, List.isEmpty_nil, ite_true, joinS_nil, joinS_single,
          sj_nil_left, sj_nil_right, joinS_cons]
      · have hne : (preOf g).isEmpty = false := by
          simp [List.isEmpty_iff, preOf_ne_nil hgn]
        rw [hne]
        simp only [Bool.false_eq_true, if_false, List.nil_append]
        rw [pyStrip_preOf hg]
        simp only [joinS_cons, joinS_nil, joinS_single, sj_nil_right]

theorem chunkLoop_chunks_noEdge : ∀ (rest : List PyStr) (g : List PyStr),
    (∀ s ∈ rest, noEdgeWS s = true) → (∀ s ∈ g, noEdgeWS s = true) →
    ∀ c ∈ chunkLoop rest (preOf g) [], noEdgeWS c = true := by
  intro rest
  induction rest with
  | nil =>
    intro g _ hg c hc
    unfold chunkLoop at hc
    by_cases hgn : g = []
    · subst hgn; simp [preOf_nil] at hc
    · have : (preOf g).isEmpty = false := by
        simp [List.isEmpty_iff, preOf_ne_nil hgn]
      rw [this] at hc
      simp only [Bool.false_eq_true, if_false, List.nil_append, List.mem_singleton] at hc
      subst hc
      rw [pyStrip_preOf hg]
      exact joinS_noEdgeWS hgn hg
  | cons s rest ih =>
    intro g hrest hg c hc
    have hs : noEdgeWS s = true := hrest s (by simp)
    have hrest' : ∀ t ∈ rest, noEdgeWS t = true :=
      fun t ht => hrest t (List.mem_cons_of_mem s ht)
    have hgs : ∀ t ∈ g ++ [s], noEdgeWS t = true := by
      intro t ht
      rcases List.mem_append.1 ht with h | h
      · exact hg t h
      · rcases List.mem_singleton.1 h with rfl; exact hs
    have h1s : ∀ t ∈ [s], noEdgeWS t = true := by
      intro t ht; rcases List.mem_singleton.1 ht with rfl; exact hs
    unfold chunkLoop at hc
    split at hc
    · rw [preOf_snoc hg hs] at hc
      exact ih (g ++ [s]) hrest' hgs c hc
    · rw [chunkLoop_acc] at hc
      rcases List.mem_append.1 hc with h | h
      · by_cases hgn : g = []
        · subst hgn; simp [preOf_nil] at h
        · have hne : (preOf g).isEmpty = false := by
            simp [List.isEmpty_iff, preOf_ne_nil hgn]
          rw [hne] at h
          simp only [Bool.false_eq_true, if_false, List.nil_append,
            List.mem_singleton] at h
          rcases h with rfl
          rw [pyStrip_preOf hg]
          exact joinS_noEdgeWS hgn hg
      · rw [show s ++ [' '] = preOf [s] from preOf_single.symm] at h
        exact ih [s] hrest' h1s c h

theorem joinS_ne_nil {l : List PyStr} (hne : l ≠ []) (h : ∀ s ∈ l, s ≠ []) :
    joinS l ≠ [] := by
  induction l with
  | nil => exact absurd rfl hne
  | cons a t ih =>
    rw [joinS_cons]
    cases t with
    | nil => rw [joinS_nil, sj_nil_right]; exact h a (by simp)
    | cons b tt =>
      have hj : joinS (b :: tt) ≠ [] :=
        ih (by simp) (fun s hs => h s (List.mem_cons_of_mem a hs))
      have han : a ≠ [] := h a (by simp)
      simp [sj, List.isEmpty_iff, han, hj]

theorem intercalate_eq_joinS {l : List PyStr} (h : ∀ s ∈ l, s ≠ []) :
    List.intercalate [' '] l = joinS l := by
  induction l with
  | nil => rfl
  | cons a t ih =>
    cases t with
    | nil => simp [List.intercalate, joinS, sj_nil_right]
    | cons b tt =>
      have ht : ∀ s ∈ b :: tt, s ≠ [] := fun s hs => h s (List.mem_cons_of_mem a hs)
      have hj : joinS (b :: tt) ≠ [] := joinS_ne_nil (by simp) ht
      have han : a ≠ [] := h a (by simp)
      rw [joinS_cons]
      have e : sj a (joinS (b :: tt)) = a ++ ' ' :: joinS (b :: tt) := by
        simp [sj, List.isEmpty_iff, han, hj]
      rw [e, ← ih ht]
      simp only [List.intercalate, List.intersperse_cons₂, List.flatten_cons]
      simp

/-- **C7.**  For sentence segmentations whose sentences are nonempty and
free of leading/trailing whitespace, joining the chunks emitted by the
chunking loop of `add_wikipedia_entries` with single spaces recovers the
single-space join of the input sentence sequence (chunks partition the
sentences in reading order). -/
theorem C7_chunk_reassembly (sentences : List PyStr)
    (h : ∀ s ∈ sentences, noEdgeWS s = true) :
    List.intercalate [' '] (chunkSentences sentences) =
      List.intercalate [' '] sentences := by
  have hchunks : ∀ c ∈ chunkSentences sentences, noEdgeWS c = true := by
    intro c hc
    exact chunkLoop_chunks_noEdge sentences [] h (by simp) c hc
  rw [intercalate_eq_joinS (fun c hc => ne_nil_of_noEdgeWS (hchunks c hc))]
  rw [intercalate_eq_joinS (fun s hs => ne_nil_of_noEdgeWS (h s hs))]
  have := chunkLoop_join sentences [] h (by simp)
  rw [preOf_nil] at this
  rw [show (chunkSentences sentences) = chunkLoop sentences [] [] from rfl, this]
  exact sj_nil_left _

/-- Witness for C7 at a concrete input. -/
theorem C7_chunk_reassembly_witness :
    List.intercalate [' '] (chunkSentences ["ab".toList, "cd".toList]) =
      List.intercalate [' '] ["ab".toList, "cd".toList] :=
  C7_chunk_reassembly ["ab".toList, "cd".toList] (by decide)

/-! ## C2: degenerate inputs to the similarity scorer -/

/-- **C2 (code behaviour at the failing input).**  The claim says every
degenerate pair (either vector null, zero-length or zero-norm) yields exactly
`0.0`.  The code handles `None` (and, via the `except` clause, mismatched
lengths), but for zero-norm and zero-length vectors numpy evaluates
`0.0/0.0`, which raises nothing (only a `RuntimeWarning`) and produces `nan`:
`cosine_similarity` returns `nan`, not `0.0`. -/
theorem C2_cosine_zero_norm_nan :
    cosine_similarity (some [0, 0]) (some [0, 0]) = PyFloat.nan ∧
      cosine_similarity (some []) (some []) = PyFloat.nan ∧
      PyFloat.nan ≠ PyFloat.zero ∧
      cosine_similarity none (some [0]) = PyFloat.zero ∧
      cosine_similarity (some [1]) (some [1, 0]) = PyFloat.zero := by
  refine ⟨by decide, by decide, by decide, by decide, by decide⟩

/-! ## The snippet extractor (`search_utility.py` 324–372)

`create_content_snippet(content, query, snippet_size=200)`: find all
case-insensitive word-boundary occurrences of the query terms of length ≥ 3,
anchor on the one closest to the middle of `content`, cut a window, walk both
ends to spaces, and add ellipses. -/

/-- `re` word character (`\w`), ASCII fragment — all concrete inputs here are
ASCII, where Python's unicode `\w` coincides with `[A-Za-z0-9_]`. -/
def isWordChar (c : Char) : Bool := c.isAlphanum || c = '_'

/-- Is the character at index `i` a word character? (out of range → no). -/
def wordAtPos (text : PyStr) (i : Nat) : Bool := isWordChar (text.getD i ' ')

/-- `re`'s `\b`: a word boundary sits at index `i` iff exactly one of the
characters around the gap before `text[i]` is a word character (positions
outside the text count as non-word). -/
def atBoundary (text : PyStr) (i : Nat) : Bool :=
  (if i = 0 then false else wordAtPos text (i - 1)) != wordAtPos text i

/-- Does `\b<term>\b` match `text` at position `p`? -/
def matchAt (text term : PyStr) (p : Nat) : Bool :=
  chPrefix term (text.drop p) && atBoundary text p && atBoundary text (p + term.length)

/-- Left-to-right non-overlapping scan of `re.finditer`, with explicit fuel
(`text.length + 1` always suffices: each step advances by at least one). -/
def scanMatches (text term : PyStr) : Nat → Nat → List Nat
  | 0, _ => []
  | fuel + 1, p =>
    if text.length < p then []
    else if matchAt text term p then p :: scanMatches text term fuel (p + term.length)
    else scanMatches text term fuel (p + 1)

/-- `[m.start() for m in re.finditer(r'\b' + re.escape(term) + r'\b', text)]`
(the escape makes the term a literal; terms reaching this point have length
≥ 3, so the per-match advance is positive). -/
def wbMatchPositions (text term : PyStr) : List Nat :=
  scanMatches text term (text.length + 1) 0

/-- The `term_positions` accumulation loop: for each query term in order,
skip terms shorter than 3 characters, else append that term's match
positions. -/
def termPositions (contentLower : PyStr) : List PyStr → List Nat
  | [] => []
  | t :: rest =>
    if t.length < 3 then termPositions contentLower rest
    else wbMatchPositions contentLower t ++ termPositions contentLower rest

/-- `min(term_positions, key=lambda pos: abs(pos - middle_pos))`: Python's
`min` keeps the first element among ties, i.e. a left fold that replaces the
best only on strict improvement. -/
def closestTo (middle : Nat) : List Nat → Option Nat
  | [] => none
  | p :: rest =>
    some (rest.foldl (fun best q => if Nat.dist q middle < Nat.dist best middle then q else best) p)

/-- All anchor candidates for a (content, query) pair:
`content.lower()` is scanned for the terms of `query.lower().split()`. -/
def snippetTermPositions (content query : PyStr) : List Nat :=
  termPositions (pyLower content) (pySplitWs (pyLower query))

/-- The chosen anchor: the match position closest to the content midpoint
(`len(content) // 2`). -/
def snippetAnchor (content query : PyStr) : Option Nat :=
  closestTo (content.length / 2) (snippetTermPositions content query)

/-- The `while start > 0 and content[start] != ' ': start -= 1` walk:
returns the first index `≤ s` that is `0` or holds a space. -/
def walkBack (content : PyStr) : Nat → Nat
  | 0 => 0
  | k + 1 => if content.getD (k + 1) ' ' = ' ' then k + 1 else walkBack content k

/-- The start adjustment (lines 354–357): when `start > 0`, walk back to a
space or to `0`, then *unconditionally* `start += 1`. -/
def adjStart (content : PyStr) (start : Nat) : Nat :=
  if 0 < start then walkBack content start + 1 else start

/-- The `while end < len(content) and content[end] != ' ': end += 1` walk
(fuel `content.length - e` is exact: each iteration needs `e < length`). -/
def walkFwd (content : PyStr) : Nat → Nat → Nat
  | 0, e => e
  | f + 1, e =>
    if e < content.length && content.getD e ' ' ≠ ' ' then walkFwd content f (e + 1) else e

/-- The end adjustment (lines 359–362). -/
def adjEnd (content : PyStr) (e : Nat) : Nat :=
  if e < content.length then walkFwd content (content.length - e) e else e

/-- The window bounds computed by `create_content_snippet` (anchor, raw
window of `snippetSize` characters, then both word-boundary adjustments);
`none` when no term matches.  `max(0, pos - size//2)` is the truncated
`Nat` subtraction. -/
def snippetBounds (content query : PyStr) (snippetSize : Nat := 200) :
    Option (Nat × Nat) :=
  match snippetAnchor content query with
  | none => none
  | some pos =>
    let start := pos - snippetSize / 2
    let e := min content.length (start + snippetSize)
    some (adjStart content start, adjEnd content e)

/-- Embedding of `PoliticianDataSearch.create_content_snippet`
(`src/scraper/search_utility.py` lines 324–372). -/
def create_content_snippet (content query : PyStr) (snippetSize : Nat := 200) : PyStr :=
  if content.isEmpty || query.isEmpty then []
  else
    match snippetBounds content query snippetSize with
    | none => []
    | some (s, e) =>
      let snippet := (content.drop s).take (e - s)
      let snippet := if 0 < s then "...".toList ++ snippet else snippet
      if e < content.length then snippet ++ "...".toList else snippet

/-- The concrete content on which C8 fails: 150 `a`s, then `-budget is here`
(length 165). -/
def c8content : PyStr := List.replicate 150 'a' ++ "-budget is here".toList

set_option maxRecDepth 40000 in
/-- **C8 (code behaviour at the failing input).**  On `c8content` with query
`"budget"` the only word-boundary match is at index 151, the raw window
starts at 51, and the back-walk finds no space before index 51, reaches 0,
and then the unconditional `start += 1` leaves the snippet starting at index
1 — whose preceding character `content[0] = 'a'` is not a space and which is
not the content start: the snippet (nonempty, `"..."`-prefixed) begins
mid-word, contradicting the word-boundary-safety claim (and the code's own
`# Adjust start to avoid cutting words` comment). -/
theorem C8_snippet_starts_midword :
    snippetBounds c8content "budget".toList = some (1, 165) ∧
      c8content.getD 0 ' ' = 'a' ∧ ('a' = ' ' → False) ∧ (1 : Nat) ≠ 0 ∧
      create_content_snippet c8content "budget".toList =
        "...".toList ++ (c8content.drop 1).take 164 := by
  refine ⟨by decide, by decide, by decide, by decide, by decide⟩

/-! ## The entry normalizer (`data_formatter.py` 93–385)

`PoliticianDataFormatter.format_politician_data` and its helpers, embedded
over `PyVal` in `Except PyErr`.  External capabilities are the `Oracles`
parameters; everything else is translated statement by statement. -/

/-- External capabilities used by the formatter:
`uuid.uuid4().hex[:8]`, `datetime.now().isoformat()`, NLTK's
`sent_tokenize`, SpaCy's DATE entities and sentence segmentation, and
`dateutil.parser.parse(…, fuzzy=True)` (returning the parsed year and the
`%Y-%m-%d` rendering, or `none` when parsing raises). -/
structure Oracles where
  uuidHex8 : PyStr
  now : PyStr
  sentTokenize : PyStr → List PyStr
  nlpDateEnts : PyStr → List PyStr
  parseDateY : PyStr → Option (Int × PyStr)
  nlpSents : PyStr → List PyStr

/-- One normalized entry, with exactly the optional fields the various
`add_*` helpers attach (`none` = key absent from the Python dict). -/
structure Entry where
  type : PyStr
  text : PyVal
  timestamp : PyVal
  section_name : Option PyStr := none
  source_url : Option PyVal := none
  chunk_index : Option Nat := none
  title : Option PyVal := none
  date : Option PyVal := none
  platform : Option PyStr := none

/-- The formatted per-politician record. -/
structure Formatted where
  id : PyStr
  name : PyStr
  date_of_birth : Option PyStr
  political_affiliation : Option PyVal
  positions : List PyVal
  entries : List Entry

/-- `re.sub(r'[^\w\s-]', '', s)`: keep word characters, whitespace and
hyphens. -/
def safeNameFilter (s : PyStr) : PyStr :=
  s.filter (fun c => isWordChar c || pyIsWS c || c = '-')

/-- `re.sub(...).lower().replace(' ', '-')` of line 108. -/
def safe_name (s : PyStr) : PyStr :=
  (pyLower (safeNameFilter s)).map (fun c => if c = ' ' then '-' else c)

/-- `str.replace(old, new)` (left-to-right, non-overlapping), by fuel; the
sources never call it with an empty `old`. -/
def replFuel (old new : PyStr) : Nat → PyStr → PyStr
  | 0, s => s
  | _ + 1, [] => []
  | f + 1, c :: rest =>
    if chPrefix old (c :: rest) then new ++ replFuel old new f ((c :: rest).drop old.length)
    else c :: replFuel old new f rest

def pyReplace (s old new : PyStr) : PyStr :=
  if old.isEmpty then s else replFuel old new s.length s

/-- `section_key.replace("ballotpedia_", "").replace("wikipedia_", "")`
(line 342). -/
def cleanSectionName (k : PyStr) : PyStr :=
  pyReplace (pyReplace k "ballotpedia_".toList []) "wikipedia_".toList []

/-- The inner date loop (lines 158–167 and 176–183): for each DATE entity,
try the fuzzy parse (failures swallowed by `except: pass`) and return the first
date with `1900 < year < 2010`. -/
def tryDateFromEnts (O : Oracles) : List PyStr → Option PyStr
  | [] => none
  | e :: rest =>
    match O.parseDateY e with
    | none => tryDateFromEnts O rest
    | some (y, txt) =>
      if y < 2010 ∧ 1900 < y then some txt else tryDateFromEnts O rest

/-- The per-key `try` block of `extract_birth_date` (lines 152–169): any
exception inside (`infobox[key]` failing, SpaCy on a non-string) is caught
by `except: pass`, i.e. yields `none`. -/
def birthKeyTry (O : Oracles) (infobox : PyVal) (key : PyStr) : Option PyStr :=
  match PyVal.subscript infobox key with
  | .error _ => none
  | .ok (.str text) => tryDateFromEnts O (O.nlpDateEnts text)
  | .ok _ => none

/-- The `for key in ["Born", "Date of birth", "Birth date"]` loop; the
`key in infobox` test itself is outside the `try` and may raise. -/
def birthKeysLoop (O : Oracles) (infobox : PyVal) : List PyStr → Except PyErr (Option PyStr)
  | [] => .ok none
  | k :: rest => do
    let b ← PyVal.pyIn infobox k
    if b then
      match birthKeyTry O infobox k with
      | some d => pure (some d)
      | none => birthKeysLoop O infobox rest
    else birthKeysLoop O infobox rest

/-- Embedding of `extract_birth_date` (lines 146–185). -/
def extract_birth_date (O : Oracles) (raw : PyVal) : Except PyErr (Option PyStr) := do
  let hasW ← PyVal.pyIn raw "wikipedia".toList
  let r1 ← (if hasW then do
      let w ← PyVal.subscript raw "wikipedia".toList
      let hasI ← PyVal.pyIn w "infobox".toList
      if hasI then do
        let infobox ← PyVal.subscript w "infobox".toList
        birthKeysLoop O infobox
          ["Born".toList, "Date of birth".toList, "Birth date".toList]
      else pure none
    else pure none)
  match r1 with
  | some d => pure (some d)
  | none => do
    let hasB ← PyVal.pyIn raw "ballotpedia".toList
    if hasB then do
      let b ← PyVal.subscript raw "ballotpedia".toList
      let hasS ← PyVal.pyIn b "sections".toList
      if hasS then do
        let sections ← PyVal.subscript b "sections".toList
        let hasBio ← PyVal.pyIn sections "Biography".toList
        if hasBio then do
          let bio ← PyVal.subscript sections "Biography".toList
          match bio with
          | .str btxt => pure (tryDateFromEnts O (O.nlpDateEnts btxt))
          | _ => throw .typeError
        else pure none
      else pure none
    else pure none

/-- The `for key in [...]: if key in infobox: return infobox[key]` loop of
`extract_political_affiliation`. -/
def affKeysLoop (infobox : PyVal) : List PyStr → Except PyErr (Option PyVal)
  | [] => .ok none
  | k :: rest => do
    let b ← PyVal.pyIn infobox k
    if b then do
      let v ← PyVal.subscript infobox k
      pure (some v)
    else affKeysLoop infobox rest

/-- Embedding of `extract_political_affiliation` (lines 187–203). -/
def extract_political_affiliation (raw : PyVal) : Except PyErr (Option PyVal) := do
  let hasW ← PyVal.pyIn raw "wikipedia".toList
  let r1 ← (if hasW then do
      let w ← PyVal.subscript raw "wikipedia".toList
      let hasI ← PyVal.pyIn w "infobox".toList
      if hasI then do
        let infobox ← PyVal.subscript w "infobox".toList
        affKeysLoop infobox ["Party".toList, "Political party".toList]
      else pure none
    else pure none)
  match r1 with
  | some v => pure (some v)
  | none => do
    let hasB ← PyVal.pyIn raw "ballotpedia".toList
    if hasB then do
      let b ← PyVal.subscript raw "ballotpedia".toList
      let hasI ← PyVal.pyIn b "infobox".toList
      if hasI then do
        let infobox ← PyVal.subscript b "infobox".toList
        affKeysLoop infobox
          ["Party".toList, "Political party".toList, "Affiliation".toList]
      else pure none
    else pure none

/-- `re.search(r'\b(elected|appointed|served as|position|office)\b',
sent.text, re.IGNORECASE)` (line 223). -/
def hasCareerKeyword (sent : PyStr) : Bool :=
  let ls := pyLower sent
  ["elected".toList, "appointed".toList, "served as".toList,
    "position".toList, "office".toList].any
    (fun w => !(wbMatchPositions ls w).isEmpty)

/-- The infobox part of `extract_positions`. -/
def posKeysLoop (infobox : PyVal) : List PyStr → Except PyErr (List PyVal)
  | [] => .ok []
  | k :: rest => do
    let b ← PyVal.pyIn infobox k
    if b then do
      let v ← PyVal.subscript infobox k
      let more ← posKeysLoop infobox rest
      pure (v :: more)
    else posKeysLoop infobox rest

/-- Embedding of `extract_positions` (lines 205–226). -/
def extract_positions (O : Oracles) (raw : PyVal) : Except PyErr (List PyVal) := do
  let hasW ← PyVal.pyIn raw "wikipedia".toList
  let p1 ← (if hasW then do
      let w ← PyVal.subscript raw "wikipedia".toList
      let hasI ← PyVal.pyIn w "infobox".toList
      if hasI then do
        let infobox ← PyVal.subscript w "infobox".toList
        posKeysLoop infobox
          ["Office".toList, "Offices held".toList, "Title".toList, "Position".toList]
      else pure []
    else pure [])
  let hasB ← PyVal.pyIn raw "ballotpedia".toList
  let p2 ← (if hasB then do
      let b ← PyVal.subscript raw "ballotpedia".toList
      let hasS ← PyVal.pyIn b "sections".toList
      if hasS then do
        let sections ← PyVal.subscript b "sections".toList
        let hasC ← PyVal.pyIn sections "Career".toList
        if hasC then do
          let career ← PyVal.subscript sections "Career".toList
          match career with
          | .str ctxt =>
            pure (((O.nlpSents ctxt).filter hasCareerKeyword).map
              (fun t => PyVal.str (pyStrip t)))
          | _ => throw .typeError
        else pure []
      else pure []
    else pure [])
  pure (p1 ++ p2)

/-- Embedding of `add_biographical_entries` (lines 228–259). -/
def add_biographical_entries (O : Oracles) (raw : PyVal) : Except PyErr (List Entry) := do
  let hasW ← PyVal.pyIn raw "wikipedia".toList
  let e1 ← (if hasW then do
      let w ← PyVal.subscript raw "wikipedia".toList
      let hasS ← PyVal.pyIn w "summary".toList
      if hasS then do
        let summary ← PyVal.subscript w "summary".toList
        let url ← PyVal.pyGet w "url".toList (.str [])
        let ts ← PyVal.pyGet raw "scraped_at".toList (.str O.now)
        pure [({ type := "biography".toList, text := summary,
                 source_url := some url, timestamp := ts } : Entry)]
      else pure []
    else pure [])
  let hasB ← PyVal.pyIn raw "ballotpedia".toList
  let e2 ← (if hasB then do
      let b ← PyVal.subscript raw "ballotpedia".toList
      let hasS ← PyVal.pyIn b "sections".toList
      if hasS then do
        let sections ← PyVal.subscript b "sections".toList
        let hasBio ← PyVal.pyIn sections "Biography".toList
        if hasBio then do
          let bio ← PyVal.subscript sections "Biography".toList
          let url ← PyVal.pyGet b "url".toList (.str [])
          let ts ← PyVal.pyGet raw "scraped_at".toList (.str O.now)
          pure [({ type := "biography".toList, text := bio,
                   source_url := some url, timestamp := ts } : Entry)]
        else pure []
      else pure []
    else pure [])
  let hasC ← PyVal.pyIn raw "congress_bio".toList
  let e3 ← (if hasC then do
      let cb ← PyVal.subscript raw "congress_bio".toList
      let hasBio ← PyVal.pyIn cb "bio".toList
      if hasBio then do
        let bio ← PyVal.subscript cb "bio".toList
        let url ← PyVal.pyGet cb "url".toList (.str [])
        let ts ← PyVal.pyGet raw "scraped_at".toList (.str O.now)
        pure [({ type := "biography".toList, text := bio,
                 source_url := some url, timestamp := ts } : Entry)]
      else pure []
    else pure [])
  pure (e1 ++ e2 ++ e3)

/-- One iteration of the `for article in raw_data["news_articles"]` loop
(lines 264–275): `article.get` raises `AttributeError` unless the item is a
mapping; an article with falsy content contributes nothing. -/
def newsArticleEntry (O : Oracles) (raw article : PyVal) : Except PyErr (List Entry) := do
  let title ← PyVal.pyGet article "title".toList (.str [])
  let descr ← PyVal.pyGet article "description".toList (.str [])
  let content ← PyVal.pyGet article "content".toList descr
  if content.truthy then do
    let url ← PyVal.pyGet article "url".toList (.str [])
    let scr ← PyVal.pyGet raw "scraped_at".toList (.str O.now)
    let ts ← PyVal.pyGet article "published_date".toList scr
    pure [({ type := "news_article".toList,
             text := .str (pyStrOf title ++ '\n' :: '\n' :: pyStrOf content),
             source_url := some url, timestamp := ts } : Entry)]
  else pure []

def newsLoop (O : Oracles) (raw : PyVal) : List PyVal → Except PyErr (List Entry)
  | [] => .ok []
  | a :: rest => do
    let e ← newsArticleEntry O raw a
    let more ← newsLoop O raw rest
    pure (e ++ more)

/-- Embedding of `add_news_entries` (lines 261–275): iterating a
non-iterable `news_articles` value raises `TypeError`, and iterating a
string or mapping hands non-mapping items to `article.get`, raising
`AttributeError` — there is no per-section error isolation. -/
def add_news_entries (O : Oracles) (raw : PyVal) : Except PyErr (List Entry) := do
  let has ← PyVal.pyIn raw "news_articles".toList
  if has then do
    let arts ← PyVal.subscript raw "news_articles".toList
    let items ← PyVal.pyIter arts
    newsLoop O raw items
  else pure []

/-- Embedding of `add_wikipedia_entries` (lines 277–321): the long-form
content is chunked with `chunkSentences` over the NLTK segmentation; named
sections become `wikipedia_section` entries. -/
def add_wikipedia_entries (O : Oracles) (raw : PyVal) : Except PyErr (List Entry) := do
  let hasW ← PyVal.pyIn raw "wikipedia".toList
  let part1 ← (if hasW then do
      let w ← PyVal.subscript raw "wikipedia".toList
      let hasC ← PyVal.pyIn w "content".toList
      if hasC then do
        let fc ← PyVal.subscript w "content".toList
        match fc with
        | .str contentS => do
          let chunks := chunkSentences (O.sentTokenize contentS)
          let url ← PyVal.pyGet w "url".toList (.str [])
          let ts ← PyVal.pyGet raw "scraped_at".toList (.str O.now)
          pure (chunks.enum.map (fun ic =>
            ({ type := "wikipedia_content".toList, text := .str ic.2,
               source_url := some url, chunk_index := some ic.1,
               timestamp := ts } : Entry)))
        | _ => throw .typeError
      else pure []
    else pure [])
  let part2 ← (if hasW then do
      let w ← PyVal.subscript raw "wikipedia".toList
      let hasS ← PyVal.pyIn w "sections".toList
      if hasS then do
        let sections ← PyVal.subscript w "sections".toList
        let items ← PyVal.pyItems sections
        let url ← PyVal.pyGet w "url".toList (.str [])
        let ts ← PyVal.pyGet raw "scraped_at".toList (.str O.now)
        pure (items.filterMap (fun kv =>
          if kv.2.truthy then
            some ({ type := "wikipedia_section".toList, section_name := some kv.1,
                    text := kv.2, source_url := some url, timestamp := ts } : Entry)
          else none))
      else pure []
    else pure [])
  pure (part1 ++ part2)

/-- Embedding of `add_ballotpedia_entries` (lines 323–334). -/
def add_ballotpedia_entries (O : Oracles) (raw : PyVal) : Except PyErr (List Entry) := do
  let hasB ← PyVal.pyIn raw "ballotpedia".toList
  if hasB then do
    let b ← PyVal.subscript raw "ballotpedia".toList
    let hasS ← PyVal.pyIn b "sections".toList
    if hasS then do
      let sections ← PyVal.subscript b "sections".toList
      let items ← PyVal.pyItems sections
      let url ← PyVal.pyGet b "url".toList (.str [])
      let ts ← PyVal.pyGet raw "scraped_at".toList (.str O.now)
      pure (items.filterMap (fun kv =>
        if kv.2.truthy then
          some ({ type := "ballotpedia_section".toList, section_name := some kv.1,
                  text := kv.2, source_url := some url, timestamp := ts } : Entry)
        else none))
    else pure []
  else pure []

/-- Embedding of `add_voting_record_entries` (lines 336–349).  Note: the
constructed entries carry **no** `source_url` key at all. -/
def add_voting_record_entries (O : Oracles) (raw : PyVal) : Except PyErr (List Entry) := do
  let hasV ← PyVal.pyIn raw "voting_record".toList
  if hasV then do
    let v ← PyVal.subscript raw "voting_record".toList
    let hasS ← PyVal.pyIn v "sections".toList
    if hasS then do
      let sections ← PyVal.subscript v "sections".toList
      let items ← PyVal.pyItems sections
      let ts ← PyVal.pyGet raw "scraped_at".toList (.str O.now)
      pure (items.filterMap (fun kv =>
        if kv.2.truthy then
          some ({ type := "voting_record".toList,
                  section_name := some (cleanSectionName kv.1),
                  text := kv.2, timestamp := ts } : Entry)
        else none))
    else pure []
  else pure []

/-- One iteration of the speech loop (lines 354–363): `"text" in speech` is
a *substring* test when the item is a string (and `TypeError` when it is
not a container); `speech["text"]` then raises unless the item is a
mapping. -/
def speechItem (O : Oracles) (raw speech : PyVal) : Except PyErr (List Entry) := do
  let b ← PyVal.pyIn speech "text".toList
  if b then do
    let text ← PyVal.subscript speech "text".toList
    let title ← PyVal.pyGet speech "title".toList (.str "Untitled Speech".toList)
    let date ← PyVal.pyGet speech "date".toList (.str [])
    let src ← PyVal.pyGet speech "source".toList (.str [])
    let ts ← PyVal.pyGet raw "scraped_at".toList (.str O.now)
    pure [({ type := "speech".toList, text := text, title := some title,
             date := some date, source_url := some src, timestamp := ts } : Entry)]
  else pure []

def speechLoop (O : Oracles) (raw : PyVal) : List PyVal → Except PyErr (List Entry)
  | [] => .ok []
  | sp :: rest => do
    let e ← speechItem O raw sp
    let more ← speechLoop O raw rest
    pure (e ++ more)

/-- Embedding of `add_speech_entries` (lines 351–363): a `speeches` value
that is not a list fails the `isinstance(…, list)` guard and is skipped
silently (no warning is logged). -/
def add_speech_entries (O : Oracles) (raw : PyVal) : Except PyErr (List Entry) := do
  let has ← PyVal.pyIn raw "speeches".toList
  if has then do
    let sp ← PyVal.subscript raw "speeches".toList
    match sp with
    | .list xs => speechLoop O raw xs
    | _ => pure []
  else pure []

/-- The text of a social-media entry:
an f-string `{name}'s {platform} account: {url}` (39 is the apostrophe). -/
def socialText (name platform : PyStr) (url : PyVal) : PyStr :=
  name ++ [Char.ofNat 39, 's', ' '] ++ platform ++ " account: ".toList ++ pyStrOf url

def socialUrlLoop (O : Oracles) (raw : PyVal) (name platform : PyStr) :
    List PyVal → Except PyErr (List Entry)
  | [] => .ok []
  | u :: rest => do
    let ts ← PyVal.pyGet raw "scraped_at".toList (.str O.now)
    let more ← socialUrlLoop O raw name platform rest
    pure (({ type := "social_media".toList, platform := some platform,
             text := .str (socialText name platform u),
             source_url := some u, timestamp := ts } : Entry) :: more)

/-- One `(platform, urls)` iteration of `add_social_media_entries` (lines
368–385): a list of urls contributes one entry per url, a string one entry,
anything else nothing. -/
def socialPlatformEntries (O : Oracles) (raw : PyVal) (name platform : PyStr)
    (urls : PyVal) : Except PyErr (List Entry) :=
  match urls with
  | .list us => socialUrlLoop O raw name platform us
  | .str u => do
    let ts ← PyVal.pyGet raw "scraped_at".toList (.str O.now)
    pure [({ type := "social_media".toList, platform := some platform,
             text := .str (socialText name platform (.str u)),
             source_url := some (.str u), timestamp := ts } : Entry)]
  | _ => .ok []

def socialItemsLoop (O : Oracles) (raw : PyVal) (name : PyStr) :
    List (PyStr × PyVal) → Except PyErr (List Entry)
  | [] => .ok []
  | (platform, urls) :: rest => do
    let e ← socialPlatformEntries O raw name platform urls
    let more ← socialItemsLoop O raw name rest
    pure (e ++ more)

/-- Embedding of `add_social_media_entries` (lines 365–385). -/
def add_social_media_entries (O : Oracles) (raw : PyVal) (name : PyStr) :
    Except PyErr (List Entry) := do
  let has ← PyVal.pyIn raw "social_media".toList
  if has then do
    let sm ← PyVal.subscript raw "social_media".toList
    let items ← PyVal.pyItems sm
    socialItemsLoop O raw name items
  else pure []

/--
Embedding of `PoliticianDataFormatter.format_politician_data`
(`src/formatter/data_formatter.py` lines 93–144): falsy input → `None`;
otherwise the header fields are extracted and the seven `add_*` helpers run
in order, each appending its entries.  There is **no** try/except anywhere
inside this function: any exception raised by a helper on a malformed
section propagates out (the only handler sits in `process_all_files`, which
catches per *file* and then skips the whole record).
-/
def format_politician_data (O : Oracles) (raw : PyVal) :
    Except PyErr (Option Formatted) := do
  if raw.truthy = false then pure none
  else do
    let nameV ← PyVal.pyGet raw "name".toList (.str "Unknown".toList)
    let politician_name ←
      (match nameV with
       | .str s => pure s
       | _ => throw .typeError)
    let politician_id := safe_name politician_name ++ '-' :: O.uuidHex8
    let dob ← extract_birth_date O raw
    let aff ← extract_political_affiliation raw
    let pos ← extract_positions O raw
    let e1 ← add_biographical_entries O raw
    let e2 ← add_news_entries O raw
    let e3 ← add_wikipedia_entries O raw
    let e4 ← add_ballotpedia_entries O raw
    let e5 ← add_voting_record_entries O raw
    let e6 ← add_speech_entries O raw
    let e7 ← add_social_media_entries O raw politician_name
    pure (some { id := politician_id, name := politician_name,
                 date_of_birth := dob, political_affiliation := aff,
                 positions := pos,
                 entries := e1 ++ e2 ++ e3 ++ e4 ++ e5 ++ e6 ++ e7 })

/-- The entries of a normalization outcome (empty on error or falsy input). -/
def entriesOf : Except PyErr (Option Formatted) → List Entry
  | .ok (some fd) => fd.entries
  | _ => []

/-- Did normalization return a record? -/
def formatOk : Except PyErr (Option Formatted) → Bool
  | .ok (some _) => true
  | _ => false

/-- A fixed oracle instantiation for concrete evaluations (the concrete
records below never reach the NLP paths, so the trivial functions are
irrelevant). -/
def O0 : Oracles where
  uuidHex8 := "00000000".toList
  now := "2025-01-01T00:00:00".toList
  sentTokenize := fun _ => []
  nlpDateEnts := fun _ => []
  parseDateY := fun _ => none
  nlpSents := fun _ => []

/-! ## Inversion lemmas for `Except` computations -/

theorem bind_ok_iff {α β : Type} {x : Except PyErr α} {f : α → Except PyErr β} {v : β} :
    (x >>= f = Except.ok v) ↔ ∃ a, x = .ok a ∧ f a = .ok v := by
  cases x <;> simp [Bind.bind, Except.bind]

theorem pure_ok_iff {α : Type} {x v : α} :
    (pure x = Except.ok (ε := PyErr) v) ↔ v = x := by
  constructor
  · intro h; cases h; rfl
  · intro h; cases h; rfl

theorem throw_ok_iff {α : Type} {e : PyErr} {v : α} :
    ((throw e : Except PyErr α) = Except.ok v) ↔ False := by
  constructor
  · intro h; cases h
  · intro h; cases h

/-! ## C9 invariant: `source_url` presence by entry type -/

/-- The (amended) C9 invariant of one entry, as a boolean: the `source_url`
key is absent exactly on voting-record entries. -/
def suOk (e : Entry) : Bool :=
  e.source_url.isNone == (e.type == "voting_record".toList)

theorem suOk_iff {e : Entry} (h : suOk e = true) :
    e.source_url = none ↔ e.type = "voting_record".toList := by
  unfold suOk at h
  rw [beq_iff_eq] at h
  constructor
  · intro hs
    have : e.source_url.isNone = true := by rw [hs]; rfl
    rw [this] at h
    exact beq_iff_eq.1 h.symm
  · intro ht
    have : (e.type == "voting_record".toList) = true := beq_iff_eq.2 ht
    rw [this] at h
    cases hv : e.source_url with
    | none => rfl
    | some v => rw [hv] at h; simp at h

theorem speechItem_suOk {O : Oracles} {raw sp : PyVal} {es : List Entry}
    (h : speechItem O raw sp = .ok es) : es.all suOk = true := by
  unfold speechItem at h
  rw [bind_ok_iff] at h
  obtain ⟨b, _, h⟩ := h
  cases b with
  | false =>
    rw [if_neg (by simp), pure_ok_iff] at h
    subst h; rfl
  | true =>
    rw [if_pos rfl] at h
    rw [bind_ok_iff] at h; obtain ⟨text, _, h⟩ := h
    rw [bind_ok_iff] at h; obtain ⟨title, _, h⟩ := h
    rw [bind_ok_iff] at h; obtain ⟨date, _, h⟩ := h
    rw [bind_ok_iff] at h; obtain ⟨src, _, h⟩ := h
    rw [bind_ok_iff] at h; obtain ⟨ts, _, h⟩ := h
    rw [pure_ok_iff] at h
    subst h
    rfl

theorem speechLoop_suOk {O : Oracles} {raw : PyVal} :
    ∀ {xs : List PyVal} {es : List Entry},
      speechLoop O raw xs = .ok es → es.all suOk = true := by
  intro xs
  induction xs with
  | nil =>
    intro es h
    unfold speechLoop at h
    cases h; rfl
  | cons sp rest ih =>
    intro es h
    unfold speechLoop at h
    rw [bind_ok_iff] at h; obtain ⟨e, he, h⟩ := h
    rw [bind_ok_iff] at h; obtain ⟨more, hmore, h⟩ := h
    rw [pure_ok_iff] at h
    subst h
    rw [List.all_append, speechItem_suOk he, ih hmore]
    rfl

theorem add_speech_suOk {O : Oracles} {raw : PyVal} {es : List Entry}
    (h : add_speech_entries O raw = .ok es) : es.all suOk = true := by
  unfold add_speech_entries at h
  rw [bind_ok_iff] at h; obtain ⟨b, _, h⟩ := h
  cases b with
  | false => rw [if_neg (by simp), pure_ok_iff] at h; subst h; rfl
  | true =>
    rw [if_pos rfl] at h
    rw [bind_ok_iff] at h; obtain ⟨sp, _, h⟩ := h
    cases sp with
    | list xs => exact speechLoop_suOk h
    | str s => rw [pure_ok_iff] at h; subst h; rfl
    | num q => rw [pure_ok_iff] at h; subst h; rfl
    | bool b => rw [pure_ok_iff] at h; subst h; rfl
    | null => rw [pure_ok_iff] at h; subst h; rfl
    | dict kvs => rw [pure_ok_iff] at h; subst h; rfl

theorem newsArticleEntry_suOk {O : Oracles} {raw a : PyVal} {es : List Entry}
    (h : newsArticleEntry O raw a = .ok es) : es.all suOk = true := by
  unfold newsArticleEntry at h
  rw [bind_ok_iff] at h; obtain ⟨title, _, h⟩ := h
  rw [bind_ok_iff] at h; obtain ⟨descr, _, h⟩ := h
  rw [bind_ok_iff] at h; obtain ⟨content, _, h⟩ := h
  by_cases hc : content.truthy = true
  · rw [if_pos hc] at h
    rw [bind_ok_iff] at h; obtain ⟨url, _, h⟩ := h
    rw [bind_ok_iff] at h; obtain ⟨scr, _, h⟩ := h
    rw [bind_ok_iff] at h; obtain ⟨ts, _, h⟩ := h
    rw [pure_ok_iff] at h; subst h; rfl
  · rw [if_neg hc, pure_ok_iff] at h; subst h; rfl

theorem newsLoop_suOk {O : Oracles} {raw : PyVal} :
    ∀ {xs : List PyVal} {es : List Entry},
      newsLoop O raw xs = .ok es → es.all suOk = true := by
  intro xs
  induction xs with
  | nil => intro es h; unfold newsLoop at h; cases h; rfl
  | cons a rest ih =>
    intro es h
    unfold newsLoop at h
    rw [bind_ok_iff] at h; obtain ⟨e, he, h⟩ := h
    rw [bind_ok_iff] at h; obtain ⟨more, hmore, h⟩ := h
    rw [pure_ok_iff] at h; subst h
    rw [List.all_append, newsArticleEntry_suOk he, ih hmore]
    rfl

theorem add_news_suOk {O : Oracles} {raw : PyVal} {es : List Entry}
    (h : add_news_entries O raw = .ok es) : es.all suOk = true := by
  unfold add_news_entries at h
  rw [bind_ok_iff] at h; obtain ⟨b, _, h⟩ := h
  cases b with
  | false => rw [if_neg (by simp), pure_ok_iff] at h; subst h; rfl
  | true =>
    rw [if_pos rfl] at h
    rw [bind_ok_iff] at h; obtain ⟨arts, _, h⟩ := h
    rw [bind_ok_iff] at h; obtain ⟨items, _, h⟩ := h
    exact newsLoop_suOk h

theorem add_biographical_suOk {O : Oracles} {raw : PyVal} {es : List Entry}
    (h : add_biographical_entries O raw = .ok es) : es.all suOk = true := by
  unfold add_biographical_entries at h
  rw [bind_ok_iff] at h; obtain ⟨hasW, _, h⟩ := h
  rw [bind_ok_iff] at h; obtain ⟨e1, he1, h⟩ := h
  rw [bind_ok_iff] at h; obtain ⟨hasB, _, h⟩ := h
  rw [bind_ok_iff] at h; obtain ⟨e2, he2, h⟩ := h
  rw [bind_ok_iff] at h; obtain ⟨hasC, _, h⟩ := h
  rw [bind_ok_iff] at h; obtain ⟨e3, he3, h⟩ := h
  rw [pure_ok_iff] at h; subst h
  have hb1 : e1.all suOk = true := by
    cases hasW with
    | false => rw [if_neg (by simp), pure_ok_iff] at he1; subst he1; rfl
    | true =>
      rw [if_pos rfl] at he1
      rw [bind_ok_iff] at he1; obtain ⟨w, _, he1⟩ := he1
      rw [bind_ok_iff] at he1; obtain ⟨hasS, _, he1⟩ := he1
      cases hasS with
      | false => rw [if_neg (by simp), pure_ok_iff] at he1; subst he1; rfl
      | true =>
        rw [if_pos rfl] at he1
        rw [bind_ok_iff] at he1; obtain ⟨summary, _, he1⟩ := he1
        rw [bind_ok_iff] at he1; obtain ⟨url, _, he1⟩ := he1
        rw [bind_ok_iff] at he1; obtain ⟨ts, _, he1⟩ := he1
        rw [pure_ok_iff] at he1; subst he1; rfl
  have hb2 : e2.all suOk = true := by
    cases hasB with
    | false => rw [if_neg (by simp), pure_ok_iff] at he2; subst he2; rfl
    | true =>
      rw [if_pos rfl] at he2
      rw [bind_ok_iff] at he2; obtain ⟨b, _, he2⟩ := he2
      rw [bind_ok_iff] at he2; obtain ⟨hasS, _, he2⟩ := he2
      cases hasS with
      | false => rw [if_neg (by simp), pure_ok_iff] at he2; subst he2; rfl
      | true =>
        rw [if_pos rfl] at he2
        rw [bind_ok_iff] at he2; obtain ⟨sections, _, he2⟩ := he2
        rw [bind_ok_iff] at he2; obtain ⟨hasBio, _, he2⟩ := he2
        cases hasBio with
        | false => rw [if_neg (by simp), pure_ok_iff] at he2; subst he2; rfl
        | true =>
          rw [if_pos rfl] at he2
          rw [bind_ok_iff] at he2; obtain ⟨bio, _, he2⟩ := he2
          rw [bind_ok_iff] at he2; obtain ⟨url, _, he2⟩ := he2
          rw [bind_ok_iff] at he2; obtain ⟨ts, _, he2⟩ := he2
          rw [pure_ok_iff] at he2; subst he2; rfl
  have hb3 : e3.all suOk = true := by
    cases hasC with
    | false => rw [if_neg (by simp), pure_ok_iff] at he3; subst he3; rfl
    | true =>
      rw [if_pos rfl] at he3
      rw [bind_ok_iff] at he3; obtain ⟨cb, _, he3⟩ := he3
      rw [bind_ok_iff] at he3; obtain ⟨hasBio, _, he3⟩ := he3
      cases hasBio with
      | false => rw [if_neg (by simp), pure_ok_iff] at he3; subst he3; rfl
      | true =>
        rw [if_pos rfl] at he3
        rw [bind_ok_iff] at he3; obtain ⟨bio, _, he3⟩ := he3
        rw [bind_ok_iff] at he3; obtain ⟨url, _, he3⟩ := he3
        rw [bind_ok_iff] at he3; obtain ⟨ts, _, he3⟩ := he3
        rw [pure_ok_iff] at he3; subst he3; rfl
  rw [List.all_append, List.all_append, hb1, hb2, hb3]
  rfl

theorem all_suOk_filterMap {kvs : List (PyStr × PyVal)} {f : PyStr × PyVal → Option Entry}
    (hf : ∀ kv e, f kv = some e → suOk e = true) :
    (kvs.filterMap f).all suOk = true := by
  rw [List.all_eq_true]
  intro e he
  obtain ⟨kv, _, hkv⟩ := List.mem_filterMap.1 he
  exact hf kv e hkv

theorem add_wikipedia_suOk {O : Oracles} {raw : PyVal} {es : List Entry}
    (h : add_wikipedia_entries O raw = .ok es) : es.all suOk = true := by
  unfold add_wikipedia_entries at h
  rw [bind_ok_iff] at h; obtain ⟨hasW, _, h⟩ := h
  rw [bind_ok_iff] at h; obtain ⟨p1, hp1, h⟩ := h
  rw [bind_ok_iff] at h; obtain ⟨p2, hp2, h⟩ := h
  rw [pure_ok_iff] at h; subst h
  have hb1 : p1.all suOk = true := by
    cases hasW with
    | false => rw [if_neg (by simp), pure_ok_iff] at hp1; subst hp1; rfl
    | true =>
      rw [if_pos rfl] at hp1
      rw [bind_ok_iff] at hp1; obtain ⟨w, _, hp1⟩ := hp1
      rw [bind_ok_iff] at hp1; obtain ⟨hasC, _, hp1⟩ := hp1
      cases hasC with
      | false => rw [if_neg (by simp), pure_ok_iff] at hp1; subst hp1; rfl
      | true =>
        rw [if_pos rfl] at hp1
        rw [bind_ok_iff] at hp1; obtain ⟨fc, _, hp1⟩ := hp1
        cases fc with
        | str contentS =>
          rw [bind_ok_iff] at hp1; obtain ⟨url, _, hp1⟩ := hp1
          rw [bind_ok_iff] at hp1; obtain ⟨ts, _, hp1⟩ := hp1
          rw [pure_ok_iff] at hp1; subst hp1
          rw [List.all_eq_true]
          intro e he
          obtain ⟨ic, _, hic⟩ := List.mem_map.1 he
          subst hic; rfl
        | num q => rw [throw_ok_iff] at hp1; cases hp1
        | bool b => rw [throw_ok_iff] at hp1; cases hp1
        | null => rw [throw_ok_iff] at hp1; cases hp1
        | list xs => rw [throw_ok_iff] at hp1; cases hp1
        | dict kvs => rw [throw_ok_iff] at hp1; cases hp1
  have hb2 : p2.all suOk = true := by
    cases hasW with
    | false => rw [if_neg (by simp), pure_ok_iff] at hp2; subst hp2; rfl
    | true =>
      rw [if_pos rfl] at hp2
      rw [bind_ok_iff] at hp2; obtain ⟨w, _, hp2⟩ := hp2
      rw [bind_ok_iff] at hp2; obtain ⟨hasS, _, hp2⟩ := hp2
      cases hasS with
      | false => rw [if_neg (by simp), pure_ok_iff] at hp2; subst hp2; rfl
      | true =>
        rw [if_pos rfl] at hp2
        rw [bind_ok_iff] at hp2; obtain ⟨sections, _, hp2⟩ := hp2
        rw [bind_ok_iff] at hp2; obtain ⟨items, _, hp2⟩ := hp2
        rw [bind_ok_iff] at hp2; obtain ⟨url, _, hp2⟩ := hp2
        rw [bind_ok_iff] at hp2; obtain ⟨ts, _, hp2⟩ := hp2
        rw [pure_ok_iff] at hp2; subst hp2
        refine all_suOk_filterMap ?_
        intro kv e hkv
        by_cases ht : kv.2.truthy = true
        · rw [if_pos ht] at hkv; cases hkv; rfl
        · rw [if_neg ht] at hkv; cases hkv
  rw [List.all_append, hb1, hb2]
  rfl

theorem add_ballotpedia_suOk {O : Oracles} {raw : PyVal} {es : List Entry}
    (h : add_ballotpedia_entries O raw = .ok es) : es.all suOk = true := by
  unfold add_ballotpedia_entries at h
  rw [bind_ok_iff] at h; obtain ⟨hasB, _, h⟩ := h
  cases hasB with
  | false => rw [if_neg (by simp), pure_ok_iff] at h; subst h; rfl
  | true =>
    rw [if_pos rfl] at h
    rw [bind_ok_iff] at h; obtain ⟨b, _, h⟩ := h
    rw [bind_ok_iff] at h; obtain ⟨hasS, _, h⟩ := h
    cases hasS with
    | false => rw [if_neg (by simp), pure_ok_iff] at h; subst h; rfl
    | true =>
      rw [if_pos rfl] at h
      rw [bind_ok_iff] at h; obtain ⟨sections, _, h⟩ := h
      rw [bind_ok_iff] at h; obtain ⟨items, _, h⟩ := h
      rw [bind_ok_iff] at h; obtain ⟨url, _, h⟩ := h
      rw [bind_ok_iff] at h; obtain ⟨ts, _, h⟩ := h
      rw [pure_ok_iff] at h; subst h
      refine all_suOk_filterMap ?_
      intro kv e hkv
      by_cases ht : kv.2.truthy = true
      · rw [if_pos ht] at hkv; cases hkv; rfl
      · rw [if_neg ht] at hkv; cases hkv

theorem add_voting_record_suOk {O : Oracles} {raw : PyVal} {es : List Entry}
    (h : add_voting_record_entries O raw = .ok es) : es.all suOk = true := by
  unfold add_voting_record_entries at h
  rw [bind_ok_iff] at h; obtain ⟨hasV, _, h⟩ := h
  cases hasV with
  | false => rw [if_neg (by simp), pure_ok_iff] at h; subst h; rfl
  | true =>
    rw [if_pos rfl] at h
    rw [bind_ok_iff] at h; obtain ⟨v, _, h⟩ := h
    rw [bind_ok_iff] at h; obtain ⟨hasS, _, h⟩ := h
    cases hasS with
    | false => rw [if_neg (by simp), pure_ok_iff] at h; subst h; rfl
    | true =>
      rw [if_pos rfl] at h
      rw [bind_ok_iff] at h; obtain ⟨sections, _, h⟩ := h
      rw [bind_ok_iff] at h; obtain ⟨items, _, h⟩ := h
      rw [bind_ok_iff] at h; obtain ⟨ts, _, h⟩ := h
      rw [pure_ok_iff] at h; subst h
      refine all_suOk_filterMap ?_
      intro kv e hkv
      by_cases ht : kv.2.truthy = true
      · rw [if_pos ht] at hkv; cases hkv; rfl
      · rw [if_neg ht] at hkv; cases hkv

theorem socialUrlLoop_suOk {O : Oracles} {raw : PyVal} {name platform : PyStr} :
    ∀ {us : List PyVal} {es : List Entry},
      socialUrlLoop O raw name platform us = .ok es → es.all suOk = true := by
  intro us
  induction us with
  | nil => intro es h; unfold socialUrlLoop at h; cases h; rfl
  | cons u rest ih =>
    intro es h
    unfold socialUrlLoop at h
    rw [bind_ok_iff] at h; obtain ⟨ts, _, h⟩ := h
    rw [bind_ok_iff] at h; obtain ⟨more, hmore, h⟩ := h
    rw [pure_ok_iff] at h; subst h
    rw [List.all_cons, ih hmore]
    rfl

theorem socialPlatformEntries_suOk {O : Oracles} {raw : PyVal} {name platform : PyStr}
    {urls : PyVal} {es : List Entry}
    (h : socialPlatformEntries O raw name platform urls = .ok es) : es.all suOk = true := by
  unfold socialPlatformEntries at h
  cases urls with
  | list us => exact socialUrlLoop_suOk h
  | str u =>
    rw [bind_ok_iff] at h; obtain ⟨ts, _, h⟩ := h
    rw [pure_ok_iff] at h; subst h; rfl
  | num q => cases h; rfl
  | bool b => cases h; rfl
  | null => cases h; rfl
  | dict kvs => cases h; rfl

theorem socialItemsLoop_suOk {O : Oracles} {raw : PyVal} {name : PyStr} :
    ∀ {items : List (PyStr × PyVal)} {es : List Entry},
      socialItemsLoop O raw name items = .ok es → es.all suOk = true := by
  intro items
  induction items with
  | nil => intro es h; unfold socialItemsLoop at h; cases h; rfl
  | cons kv rest ih =>
    intro es h
    unfold socialItemsLoop at h
    rw [bind_ok_iff] at h; obtain ⟨e, he, h⟩ := h
    rw [bind_ok_iff] at h; obtain ⟨more, hmore, h⟩ := h
    rw [pure_ok_iff] at h; subst h
    rw [List.all_append, socialPlatformEntries_suOk he, ih hmore]
    rfl

theorem add_social_suOk {O : Oracles} {raw : PyVal} {name : PyStr} {es : List Entry}
    (h : add_social_media_entries O raw name = .ok es) : es.all suOk = true := by
  unfold add_social_media_entries at h
  rw [bind_ok_iff] at h; obtain ⟨b, _, h⟩ := h
  cases b with
  | false => rw [if_neg (by simp), pure_ok_iff] at h; subst h; rfl
  | true =>
    rw [if_pos rfl] at h
    rw [bind_ok_iff] at h; obtain ⟨sm, _, h⟩ := h
    rw [bind_ok_iff] at h; obtain ⟨items, _, h⟩ := h
    exact socialItemsLoop_suOk h

theorem format_entries_suOk {O : Oracles} {raw : PyVal} {fd : Formatted}
    (h : format_politician_data O raw = .ok (some fd)) : fd.entries.all suOk = true := by
  unfold format_politician_data at h
  by_cases ht : raw.truthy = false
  · rw [if_pos ht, pure_ok_iff] at h; cases h
  · rw [if_neg ht] at h
    rw [bind_ok_iff] at h; obtain ⟨nameV, _, h⟩ := h
    rw [bind_ok_iff] at h; obtain ⟨pname, _, h⟩ := h
    rw [bind_ok_iff] at h; obtain ⟨dob, _, h⟩ := h
    rw [bind_ok_iff] at h; obtain ⟨aff, _, h⟩ := h
    rw [bind_ok_iff] at h; obtain ⟨pos, _, h⟩ := h
    rw [bind_ok_iff] at h; obtain ⟨e1, he1, h⟩ := h
    rw [bind_ok_iff] at h; obtain ⟨e2, he2, h⟩ := h
    rw [bind_ok_iff] at h; obtain ⟨e3, he3, h⟩ := h
    rw [bind_ok_iff] at h; obtain ⟨e4, he4, h⟩ := h
    rw [bind_ok_iff] at h; obtain ⟨e5, he5, h⟩ := h
    rw [bind_ok_iff] at h; obtain ⟨e6, he6, h⟩ := h
    rw [bind_ok_iff] at h; obtain ⟨e7, he7, h⟩ := h
    rw [pure_ok_iff] at h
    cases h
    show (e1 ++ e2 ++ e3 ++ e4 ++ e5 ++ e6 ++ e7).all suOk = true
    rw [List.all_append, List.all_append, List.all_append, List.all_append,
      List.all_append, List.all_append]
    rw [add_biographical_suOk he1, add_news_suOk he2, add_wikipedia_suOk he3,
      add_ballotpedia_suOk he4, add_voting_record_suOk he5, add_speech_suOk he6,
      add_social_suOk he7]
    rfl

/-! ## Claim theorems C1, C3, C9 -/

/-- A record whose `news_articles` section has the wrong type (an integer
where a list of mappings is expected). -/
def c1rawBad : PyVal :=
  .dict [("name".toList, .str "Jane".toList), ("news_articles".toList, .num 5)]

/-- A record with a well-formed news section and a wrongly-typed `speeches`
section (a plain string, which fails the `isinstance(…, list)` guard). -/
def c1rawMixed : PyVal :=
  .dict [("name".toList, .str "Jane".toList),
    ("news_articles".toList, .list [.dict [("title".toList, .str "T".toList),
      ("content".toList, .str "C".toList), ("url".toList, .str "u".toList)]]),
    ("speeches".toList, .str "not a list".toList)]

/-- A record whose `social_media` section has the wrong type (a string,
on which `.items()` raises `AttributeError`). -/
def c1rawSocialBad : PyVal :=
  .dict [("name".toList, .str "Jane".toList),
    ("social_media".toList, .str "x".toList)]

/-- **C1 (counterexample).**  The claim says a top-level section of the
wrong type is skipped with a logged warning and normalization still returns
an EntityRecord.  In fact `format_politician_data` has no per-section
error handling: on a record whose `news_articles` is the integer `5`,
`for article in raw_data["news_articles"]` raises `TypeError`, which
propagates out of normalization (the only handler is per-file, in
`process_all_files`, and drops the whole record). -/
theorem C1_counterexample_malformed_news_raises :
    format_politician_data O0 c1rawBad = .error .typeError := rfl

/-- **C1 (amended).**  Normalization completes and returns the entries of
the well-shaped sections only when every present section that it iterates
is well-shaped; the only malformed-section shape that is skipped is one
with an explicit type test — a non-list `speeches` value — and that skip is
silent, with no logged warning.  Any other wrongly-typed section (here:
a string `social_media`, whose `.items()` raises `AttributeError`) makes
`format_politician_data` raise. -/
theorem C1_amended_no_per_section_isolation :
    formatOk (format_politician_data O0 c1rawMixed) = true ∧
      (entriesOf (format_politician_data O0 c1rawMixed)).map Entry.type =
        ["news_article".toList] ∧
      format_politician_data O0 c1rawSocialBad = .error .attributeError :=
  ⟨rfl, rfl, rfl⟩

/-- The record of the C3 scenario:
`{"speeches": ["", "Remarks on trade policy."]}` (plus a name). -/
def c3rawStrings : PyVal :=
  .dict [("name".toList, .str "X".toList),
    ("speeches".toList, .list [.str [], .str "Remarks on trade policy.".toList])]

/-- The same speech as the mapping `add_speech_entries` actually expects. -/
def c3rawDicts : PyVal :=
  .dict [("name".toList, .str "X".toList),
    ("speeches".toList,
      .list [.dict [("text".toList, .str "Remarks on trade policy.".toList)]])]

/-- A string speech that *contains* the substring `text`. -/
def c3rawSubstr : PyVal :=
  .dict [("name".toList, .str "X".toList),
    ("speeches".toList, .list [.str "contains the word text".toList])]

/-- **C3 (counterexample).**  The claim (and the spec scenario) says
normalizing `{"speeches": ["", "Remarks on trade policy."]}` yields exactly
one `speech` Entry.  In fact `add_speech_entries` treats each speech as a
mapping: for a string item, `"text" in speech` is a *substring* test, which
is false for both `""` and `"Remarks on trade policy."`, so the scenario
record yields **zero** entries (and normalization succeeds). -/
theorem C3_counterexample_string_speeches_yield_nothing :
    entriesOf (format_politician_data O0 c3rawStrings) = [] ∧
      formatOk (format_politician_data O0 c3rawStrings) = true :=
  ⟨rfl, rfl⟩

/-- **C3 (amended).**  A `speeches` section is a list of mappings: each
mapping with a `"text"` key contributes one `speech` Entry carrying that
text; a plain-string item contributes nothing unless it happens to contain
the substring `"text"`, in which case `speech["text"]` raises `TypeError`
(string indices must be integers) out of normalization. -/
theorem C3_amended_speeches_are_mappings :
    (entriesOf (format_politician_data O0 c3rawDicts)).map
        (fun e => (e.type, e.text)) =
        [("speech".toList, PyVal.str "Remarks on trade policy.".toList)] ∧
      format_politician_data O0 c3rawSubstr = .error .typeError :=
  ⟨rfl, rfl⟩

/-- A record with one voting-record section. -/
def c9raw : PyVal :=
  .dict [("name".toList, .str "X".toList),
    ("voting_record".toList, .dict [("sections".toList,
      .dict [("wikipedia_Votes".toList, .str "Voted yes".toList)])])]

/-- **C9 (counterexample).**  The claim says every Entry carries a
`source_url` field, never absent.  `add_voting_record_entries` builds its
entries without any `source_url` key: normalizing a record with a voting
record section yields an Entry whose `source_url` is absent. -/
theorem C9_counterexample_voting_record_lacks_source_url :
    (entriesOf (format_politician_data O0 c9raw)).map
        (fun e => (e.type, e.source_url)) =
        [("voting_record".toList, (none : Option PyVal))] ∧
      formatOk (format_politician_data O0 c9raw) = true :=
  ⟨rfl, rfl⟩

/-- **C9 (amended).**  In every record normalization returns, an Entry
carries no `source_url` key exactly when it is a voting-record entry; every
other entry type always carries the key (its value defaulting to the empty
string when the raw source field is absent, and copied verbatim — hence
possibly non-string — when present). -/
theorem C9_source_url_amended (O : Oracles) (raw : PyVal) (fd : Formatted)
    (h : format_politician_data O raw = .ok (some fd)) :
    ∀ e ∈ fd.entries, (e.source_url = none ↔ e.type = "voting_record".toList) :=
  fun e he => suOk_iff (List.all_eq_true.1 (format_entries_suOk h) e he)

/-- The single entry produced for `c9raw`. -/
def c9entry : Entry :=
  { type := "voting_record".toList, text := .str "Voted yes".toList,
    timestamp := .str "2025-01-01T00:00:00".toList,
    section_name := some "Votes".toList }

/-- The full record produced for `c9raw` under `O0`. -/
def c9fd : Formatted :=
  { id := "x-00000000".toList, name := "X".toList, date_of_birth := none,
    political_affiliation := none, positions := [], entries := [c9entry] }

/-- Witness for the amended C9 at a concrete normalization run. -/
theorem C9_source_url_amended_witness :
    c9entry.source_url = none ↔ c9entry.type = "voting_record".toList :=
  C9_source_url_amended O0 c9raw c9fd rfl c9entry
    (by rw [show c9fd.entries = [c9entry] from rfl]; exact List.mem_singleton.2 rfl)

/-! ## The search utility (`search_utility.py` 134–437): results and sorting -/

/-- One search result dict, with exactly the keys each branch attaches
(`none` = key absent). -/
structure Result where
  type : PyStr
  content : PyVal
  relevance : PyFloat
  politician : Option PyVal := none
  title : Option PyVal := none
  source : Option PyVal := none
  url : Option PyVal := none
  published_date : Option PyVal := none

/-- Insert `x` behind every strictly more relevant element (Python's stable
sort passes `x` over `y` exactly when `key(x) < key(y)`). -/
def insertDesc (x : Result) : List Result → List Result
  | [] => [x]
  | y :: ys =>
    if PyFloat.lt x.relevance y.relevance then y :: insertDesc x ys
    else x :: y :: ys

/-- Embedding of
`sorted(all_results, key=lambda x: x.get("relevance", 0), reverse=True)`
(lines 195, 436) as a stable insertion sort: every stable sort computes the
same list when the key order is total, and every result list the sources
build carries non-`nan` keys, on which the float order is total. -/
def sortByRelevance : List Result → List Result
  | [] => []
  | x :: xs => insertDesc x (sortByRelevance xs)

theorem mem_insertDesc {r x : Result} {l : List Result} :
    r ∈ insertDesc x l ↔ r = x ∨ r ∈ l := by
  induction l with
  | nil => simp [insertDesc]
  | cons y ys ih =>
    unfold insertDesc
    split
    · simp only [List.mem_cons, ih]
      tauto
    · simp only [List.mem_cons]

theorem mem_sortByRelevance {r : Result} {l : List Result} :
    r ∈ sortByRelevance l ↔ r ∈ l := by
  induction l with
  | nil => simp [sortByRelevance]
  | cons x xs ih =>
    unfold sortByRelevance
    rw [mem_insertDesc, ih]
    simp

/-! ### Order lemmas for valid floats -/

theorem toQ_pos_of {d : Frac} (hwf : d.wf) (hnum : 0 < d.num) : 0 < d.toQ :=
  div_pos (by exact_mod_cast hnum) (Frac.den_pos_q hwf)

theorem frac_zero_def : (0 : Frac) = Frac.ofInt 0 := rfl

theorem frac_lt_zero_iff {n : Frac} (hn : n.wf) : Frac.lt n 0 = true ↔ n.toQ < 0 := by
  rw [frac_zero_def, Frac.lt_iff hn (Frac.wf_ofInt 0), Frac.toQ_ofInt]
  norm_num

theorem frac_zero_le_iff {n : Frac} (hn : n.wf) : Frac.le 0 n = true ↔ 0 ≤ n.toQ := by
  rw [frac_zero_def, Frac.le_iff (Frac.wf_ofInt 0) hn, Frac.toQ_ofInt]
  norm_num

theorem sqcmp_iff {n1 d1 n2 d2 : Frac} (hn1 : n1.wf) (hd1 : d1.wf) (hn2 : n2.wf)
    (hd2 : d2.wf) :
    Frac.lt (Frac.mul (Frac.sq n1) d2) (Frac.mul (Frac.sq n2) d1) = true ↔
      n1.toQ ^ 2 * d2.toQ < n2.toQ ^ 2 * d1.toQ := by
  rw [Frac.lt_iff (Frac.wf_mul (Frac.wf_sq hn1) hd2) (Frac.wf_mul (Frac.wf_sq hn2) hd1),
    Frac.toQ_mul (Frac.wf_sq hn1) hd2, Frac.toQ_mul (Frac.wf_sq hn2) hd1,
    Frac.toQ_sq hn1, Frac.toQ_sq hn2]

theorem sqeq_iff {n1 d1 n2 d2 : Frac} (hn1 : n1.wf) (hd1 : d1.wf) (hn2 : n2.wf)
    (hd2 : d2.wf) :
    Frac.eq (Frac.mul (Frac.sq n1) d2) (Frac.mul (Frac.sq n2) d1) = true ↔
      n1.toQ ^ 2 * d2.toQ = n2.toQ ^ 2 * d1.toQ := by
  rw [Frac.eq_iff (Frac.wf_mul (Frac.wf_sq hn1) hd2) (Frac.wf_mul (Frac.wf_sq hn2) hd1),
    Frac.toQ_mul (Frac.wf_sq hn1) hd2, Frac.toQ_mul (Frac.wf_sq hn2) hd1,
    Frac.toQ_sq hn1, Frac.toQ_sq hn2]

/-- `valEq` implies `lt` fails, for valid floats. -/
theorem pf_lt_eq_false_of_valEq {a b : PyFloat} (ha : a.valid) (hb : b.valid)
    (h : PyFloat.valEq a b = true) : PyFloat.lt a b = false := by
  cases a with
  | nan => exact absurd ha id
  | inf =>
    cases b with
    | nan => exact absurd hb id
    | inf => rfl
    | ninf => exact Bool.noConfusion h
    | ratio n d => exact Bool.noConfusion h
  | ninf =>
    cases b with
    | nan => exact absurd hb id
    | inf => exact Bool.noConfusion h
    | ninf => rfl
    | ratio n d => exact Bool.noConfusion h
  | ratio n1 d1 =>
    cases b with
    | nan => exact absurd hb id
    | inf => exact Bool.noConfusion h
    | ninf => exact Bool.noConfusion h
    | ratio n2 d2 =>
      obtain ⟨hn1, hd1, hp1⟩ := ha
      obtain ⟨hn2, hd2, hp2⟩ := hb
      simp only [PyFloat.valEq, Bool.and_eq_true, beq_iff_eq] at h
      obtain ⟨hsq, hsgn⟩ := h
      rw [sqeq_iff hn1 hd1 hn2 hd2] at hsq
      show PyFloat.ltR n1 d1 n2 d2 = false
      unfold PyFloat.ltR
      by_cases hneg : Frac.lt n1 0 = true
      · rw [if_pos hneg]
        have hx1 : n1.toQ < 0 := (frac_lt_zero_iff hn1).1 hneg
        have hs1 : Frac.le 0 n1 = false := by
          rw [← Bool.not_eq_true, frac_zero_le_iff hn1]; linarith
        have hs2 : Frac.le 0 n2 = false := by rw [← hsgn, hs1]
        rw [hs2]
        simp only [Bool.false_or]
        rw [← Bool.not_eq_true, sqcmp_iff hn2 hd2 hn1 hd1]
        linarith
      · rw [if_neg hneg]
        rw [← Bool.not_eq_true, Bool.and_eq_true, not_and]
        intro _
        rw [sqcmp_iff hn1 hd1 hn2 hd2]
        linarith

/-- Totality: if `a < b` fails then `b ≤ a`, for valid floats. -/
theorem pf_le_of_lt_eq_false {a b : PyFloat} (ha : a.valid) (hb : b.valid)
    (h : PyFloat.lt a b = false) : PyFloat.le b a = true := by
  cases a with
  | nan => exact absurd ha id
  | inf =>
    cases b with
    | nan => exact absurd hb id
    | inf => rfl
    | ninf => rfl
    | ratio n d => rfl
  | ninf =>
    cases b with
    | nan => exact absurd hb id
    | inf => exact Bool.noConfusion h
    | ninf => rfl
    | ratio n d => exact Bool.noConfusion h
  | ratio n1 d1 =>
    cases b with
    | nan => exact absurd hb id
    | inf => exact Bool.noConfusion h
    | ninf => rfl
    | ratio n2 d2 =>
      obtain ⟨hn1, hd1, hp1⟩ := ha
      obtain ⟨hn2, hd2, hp2⟩ := hb
      have hchar : PyFloat.lt (.ratio n2 d2) (.ratio n1 d1) = true ∨
          PyFloat.valEq (.ratio n2 d2) (.ratio n1 d1) = true := by
        show PyFloat.ltR n2 d2 n1 d1 = true ∨ _
        have hlt : PyFloat.ltR n1 d1 n2 d2 = false := h
        unfold PyFloat.ltR at hlt ⊢
        simp only [PyFloat.valEq, Bool.and_eq_true, beq_iff_eq]
        by_cases hneg1 : Frac.lt n1 0 = true
        · rw [if_pos hneg1] at hlt
          have hx1 : n1.toQ < 0 := (frac_lt_zero_iff hn1).1 hneg1
          rw [Bool.or_eq_false_iff] at hlt
          obtain ⟨hs2, hcmp⟩ := hlt
          have hx2 : n2.toQ < 0 := by
            by_contra hge
            rw [← Bool.not_eq_true, frac_zero_le_iff hn2] at hs2
            exact hs2 (le_of_not_lt (fun hlt2 => hge (by linarith)))
          have hneg2 : Frac.lt n2 0 = true := (frac_lt_zero_iff hn2).2 hx2
          rw [if_pos hneg2]
          have hcmpq : ¬ (n2.toQ ^ 2 * d1.toQ < n1.toQ ^ 2 * d2.toQ) := by
            rw [← sqcmp_iff hn2 hd2 hn1 hd1]
            simp [hcmp]
          rcases lt_or_eq_of_le (le_of_not_lt hcmpq) with hlt2 | heq
          · left
            rw [Bool.or_eq_true]
            right
            rw [sqcmp_iff hn1 hd1 hn2 hd2]
            exact hlt2
          · right
            constructor
            · rw [sqeq_iff hn2 hd2 hn1 hd1]
              exact heq.symm
            · have e1 : Frac.le 0 n1 = false := by
                rw [← Bool.not_eq_true, frac_zero_le_iff hn1]; intro hc; linarith
              have e2 : Frac.le 0 n2 = false := by
                rw [← Bool.not_eq_true, frac_zero_le_iff hn2]; intro hc; linarith
              rw [e1, e2]
        · rw [if_neg hneg1] at hlt
          have hx1 : 0 ≤ n1.toQ := by
            by_contra hc
            exact hneg1 ((frac_lt_zero_iff hn1).2 (lt_of_not_le hc))
          by_cases hneg2 : Frac.lt n2 0 = true
          · left
            rw [if_pos hneg2, Bool.or_eq_true]
            left
            exact (frac_zero_le_iff hn1).2 hx1
          · have hx2 : 0 ≤ n2.toQ := by
              by_contra hc
              exact hneg2 ((frac_lt_zero_iff hn2).2 (lt_of_not_le hc))
            rw [Bool.and_eq_false_iff] at hlt
            rcases hlt with hs2 | hcmp
            · exact absurd ((frac_zero_le_iff hn2).2 hx2) (by simp [hs2])
            · have hcmpq : ¬ (n1.toQ ^ 2 * d2.toQ < n2.toQ ^ 2 * d1.toQ) := by
                rw [← sqcmp_iff hn1 hd1 hn2 hd2]
                simp [hcmp]
              rw [if_neg hneg2]
              rcases lt_or_eq_of_le (le_of_not_lt hcmpq) with hlt2 | heq
              · left
                rw [Bool.and_eq_true]
                refine ⟨(frac_zero_le_iff hn1).2 hx1, ?_⟩
                rw [sqcmp_iff hn2 hd2 hn1 hd1]
                exact hlt2
              · right
                constructor
                · rw [sqeq_iff hn2 hd2 hn1 hd1]
                  exact heq
                · rw [(frac_zero_le_iff hn1).2 hx1, (frac_zero_le_iff hn2).2 hx2]
      rcases hchar with h1 | h1 <;> simp [PyFloat.le, h1]

/-- `valEq` through a common valid float is transitive. -/
theorem pf_valEq_trans {a b v : PyFloat} (ha : a.valid) (hb : b.valid) (hv : v.valid)
    (h1 : PyFloat.valEq a v = true) (h2 : PyFloat.valEq b v = true) :
    PyFloat.valEq a b = true := by
  cases v with
  | nan => exact absurd hv id
  | inf =>
    cases a <;> cases b <;>
      first
      | exact Bool.noConfusion h1
      | exact Bool.noConfusion h2
      | rfl
  | ninf =>
    cases a <;> cases b <;>
      first
      | exact Bool.noConfusion h1
      | exact Bool.noConfusion h2
      | rfl
  | ratio nv dv =>
    cases a with
    | nan => exact absurd ha id
    | inf => exact Bool.noConfusion h1
    | ninf => exact Bool.noConfusion h1
    | ratio n1 d1 =>
      cases b with
      | nan => exact absurd hb id
      | inf => exact Bool.noConfusion h2
      | ninf => exact Bool.noConfusion h2
      | ratio n2 d2 =>
        obtain ⟨hn1, hd1, hp1⟩ := ha
        obtain ⟨hn2, hd2, hp2⟩ := hb
        obtain ⟨hnv, hdv, hpv⟩ := hv
        simp only [PyFloat.valEq, Bool.and_eq_true, beq_iff_eq] at h1 h2 ⊢
        obtain ⟨hq1, hs1⟩ := h1
        obtain ⟨hq2, hs2⟩ := h2
        rw [sqeq_iff hn1 hd1 hnv hdv] at hq1
        rw [sqeq_iff hn2 hd2 hnv hdv] at hq2
        constructor
        · rw [sqeq_iff hn1 hd1 hn2 hd2]
          have hDv : 0 < dv.toQ := toQ_pos_of hdv hpv
          have key : n1.toQ ^ 2 * d2.toQ * dv.toQ = n2.toQ ^ 2 * d1.toQ * dv.toQ := by
            have e1 : n1.toQ ^ 2 * d2.toQ * dv.toQ = (n1.toQ ^ 2 * dv.toQ) * d2.toQ := by ring
            have e2 : n2.toQ ^ 2 * d1.toQ * dv.toQ = (n2.toQ ^ 2 * dv.toQ) * d1.toQ := by ring
            rw [e1, e2, hq1, hq2]
            ring
          exact mul_right_cancel₀ hDv.ne' key
        · rw [hs1, hs2]

/-- The descending relevance order asserted by C5 between adjacent results:
`a` at least as relevant as `b`. -/
def RD (a b : Result) : Prop := PyFloat.le b.relevance a.relevance = true

theorem head?_insertDesc (x : Result) (l : List Result) :
    (insertDesc x l).head? = some x ∨ (insertDesc x l).head? = l.head? := by
  cases l with
  | nil => left; rfl
  | cons y ys =>
    unfold insertDesc
    split
    · right; rfl
    · left; rfl

theorem chain'_insertDesc {x : Result} {l : List Result}
    (hx : x.relevance.valid) (hl : ∀ r ∈ l, r.relevance.valid)
    (hc : l.Chain' RD) : (insertDesc x l).Chain' RD := by
  induction l with
  | nil => simp [insertDesc]
  | cons y ys ih =>
    unfold insertDesc
    split
    · rename_i hlt
      rw [List.chain'_cons']
      constructor
      · intro z hz
        rcases head?_insertDesc x ys with hh | hh
        · rw [hh] at hz
          cases hz
          show PyFloat.le x.relevance y.relevance = true
          unfold PyFloat.le
          rw [hlt]
          rfl
        · rw [hh] at hz
          exact (List.chain'_cons'.1 hc).1 z hz
      · exact ih (fun r hr => hl r (List.mem_cons_of_mem y hr)) (List.chain'_cons'.1 hc).2
    · rename_i hnlt
      rw [Bool.not_eq_true] at hnlt
      rw [List.chain'_cons]
      exact ⟨pf_le_of_lt_eq_false hx (hl y (by simp)) hnlt, hc⟩

theorem chain'_sortByRelevance {l : List Result}
    (hl : ∀ r ∈ l, r.relevance.valid) : (sortByRelevance l).Chain' RD := by
  induction l with
  | nil => simp [sortByRelevance]
  | cons x xs ih =>
    unfold sortByRelevance
    refine chain'_insertDesc (hl x (by simp)) ?_
      (ih (fun r hr => hl r (List.mem_cons_of_mem x hr)))
    intro r hr
    exact hl r (List.mem_cons_of_mem x (mem_sortByRelevance.1 hr))

/-- "Same relevance value as `v`": the class whose original order the stable
sort must preserve. -/
def pEq (v : PyFloat) (r : Result) : Bool := PyFloat.valEq r.relevance v

theorem filter_insertDesc_pos {v : PyFloat} {x : Result} {l : List Result}
    (hv : v.valid) (hx : x.relevance.valid) (hl : ∀ r ∈ l, r.relevance.valid)
    (hpx : pEq v x = true) :
    (insertDesc x l).filter (pEq v) = x :: l.filter (pEq v) := by
  induction l with
  | nil => simp [insertDesc, List.filter, hpx]
  | cons y ys ih =>
    unfold insertDesc
    split
    · rename_i hlt
      have hyv : pEq v y = false := by
        by_contra hcon
        rw [Bool.not_eq_false] at hcon
        have hxy : PyFloat.valEq x.relevance y.relevance = true :=
          pf_valEq_trans hx (hl y (by simp)) hv hpx hcon
        have := pf_lt_eq_false_of_valEq hx (hl y (by simp)) hxy
        rw [this] at hlt
        cases hlt
      rw [List.filter_cons_of_neg (by simp [hyv]),
        List.filter_cons_of_neg (by simp [hyv])]
      exact ih (fun r hr => hl r (List.mem_cons_of_mem y hr))
    · rw [List.filter_cons_of_pos (by simp [hpx])]

theorem filter_insertDesc_neg {v : PyFloat} {x : Result} {l : List Result}
    (hpx : pEq v x = false) :
    (insertDesc x l).filter (pEq v) = l.filter (pEq v) := by
  induction l with
  | nil => simp [insertDesc, List.filter, hpx]
  | cons y ys ih =>
    unfold insertDesc
    split
    · rename_i hlt
      cases hpy : pEq v y with
      | true =>
        rw [List.filter_cons_of_pos (by simp [hpy]),
          List.filter_cons_of_pos (by simp [hpy]), ih]
      | false =>
        rw [List.filter_cons_of_neg (by simp [hpy]),
          List.filter_cons_of_neg (by simp [hpy]), ih]
    · rw [List.filter_cons_of_neg (by simp [hpx])]

theorem filter_sortByRelevance {v : PyFloat} {l : List Result}
    (hv : v.valid) (hl : ∀ r ∈ l, r.relevance.valid) :
    (sortByRelevance l).filter (pEq v) = l.filter (pEq v) := by
  induction l with
  | nil => rfl
  | cons x xs ih =>
    unfold sortByRelevance
    have hxs : ∀ r ∈ xs, r.relevance.valid := fun r hr => hl r (List.mem_cons_of_mem x hr)
    have hsorted : ∀ r ∈ sortByRelevance xs, r.relevance.valid :=
      fun r hr => hxs r (mem_sortByRelevance.1 hr)
    cases hpx : pEq v x with
    | true =>
      rw [filter_insertDesc_pos hv (hl x (by simp)) hsorted hpx, ih hxs,
        List.filter_cons_of_pos (by simp [hpx])]
    | false =>
      rw [filter_insertDesc_neg hpx, ih hxs,
        List.filter_cons_of_neg (by simp [hpx])]

/-! ### Keyword search (`keyword_search`, lines 374–437) -/

/-- The `create_content_snippet(content, query)` call on a `PyVal` content:
a falsy content (or empty query) short-circuits to `""` before `.lower()`
is reached; a truthy non-string raises `AttributeError` at
`content.lower()`. -/
def createSnippetPy (content : PyVal) (query : PyStr) : Except PyErr PyStr :=
  if content.truthy = false || query.isEmpty then .ok []
  else
    match content with
    | .str s => .ok (create_content_snippet s query)
    | _ => .error .attributeError

/-- `v[:200] + "..."`, the truncation fallback for the result content:
slicing a non-string raises (`TypeError`), and a list slice cannot be
concatenated with the string `"..."`. -/
def sliceAndEllipsis (v : PyVal) : Except PyErr PyVal :=
  match v with
  | .str s => .ok (.str (s.take 200 ++ "...".toList))
  | _ => .error .typeError

/-- One news item of the keyword loop (lines 393–414): the term count is
taken with multiplicity over `query_lower.split()`, terms of length ≤ 2
never match, and the denominator is the full token count. -/
def keywordNewsResult (nameV : PyVal) (queryLower query : PyStr) (news : PyVal) :
    Except PyErr (Option Result) := do
  let titleV ← PyVal.pyGet news "title".toList (.str [])
  let title ← PyVal.pyLowerV titleV
  let contentV ← PyVal.pyGet news "content".toList (.str [])
  let content ← PyVal.pyLowerV contentV
  let query_terms := pySplitWs queryLower
  let matchCount :=
    (query_terms.filter (fun t => 2 < t.length && (chSub t title || chSub t content))).length
  let relevance : Frac :=
    if query_terms.isEmpty then 0 else ⟨(matchCount : Int), (query_terms.length : Int)⟩
  if Frac.lt ⟨3, 10⟩ relevance then do
    let cs ← PyVal.pyGet news "content".toList (.str [])
    let snippet ← createSnippetPy cs query
    let title2 ← PyVal.pyGet news "title".toList (.str [])
    let contentField ←
      (if snippet.isEmpty then do
          let c ← PyVal.pyGet news "content".toList (.str [])
          sliceAndEllipsis c
        else pure (PyVal.str snippet))
    let src ← PyVal.pyGet news "source".toList (.str [])
    let url ← PyVal.pyGet news "url".toList (.str [])
    let pd ← PyVal.pyGet news "published_date".toList (.str [])
    pure (some { type := "news".toList, politician := some nameV,
                 title := some title2, content := contentField,
                 relevance := .ratio relevance 1, source := some src,
                 url := some url, published_date := some pd })
  else pure none

def keywordNewsLoop (nameV : PyVal) (queryLower query : PyStr) :
    List PyVal → Except PyErr (List Result)
  | [] => .ok []
  | n :: rest => do
    let r ← keywordNewsResult nameV queryLower query n
    let more ← keywordNewsLoop nameV queryLower query rest
    pure (match r with | some x => x :: more | none => more)

/-- One statement of the keyword loop (lines 418–433). -/
def keywordStatementResult (nameV : PyVal) (queryLower : PyStr) (statement : PyVal) :
    Except PyErr (Option Result) := do
  let textV ← PyVal.pyGet statement "text".toList (.str [])
  let text ← PyVal.pyLowerV textV
  let query_terms := pySplitWs queryLower
  let matchCount := (query_terms.filter (fun t => 2 < t.length && chSub t text)).length
  let relevance : Frac :=
    if query_terms.isEmpty then 0 else ⟨(matchCount : Int), (query_terms.length : Int)⟩
  if Frac.lt ⟨3, 10⟩ relevance then do
    let content ← PyVal.pyGet statement "text".toList (.str [])
    let src ← PyVal.pyGet statement "source".toList (.str [])
    pure (some { type := "statement".toList, politician := some nameV,
                 content := content, relevance := .ratio relevance 1,
                 source := some src })
  else pure none

def keywordStatementLoop (nameV : PyVal) (queryLower : PyStr) :
    List PyVal → Except PyErr (List Result)
  | [] => .ok []
  | st :: rest => do
    let r ← keywordStatementResult nameV queryLower st
    let more ← keywordStatementLoop nameV queryLower rest
    pure (match r with | some x => x :: more | none => more)

/-- One politician of the keyword loop (lines 388–433): news mentions, then
statements. -/
def keywordPolResults (queryLower query : PyStr) (politician : PyVal) :
    Except PyErr (List Result) := do
  let nameV ← PyVal.pyGet politician "name".toList (.str "Unknown".toList)
  let hasC ← PyVal.pyIn politician "content".toList
  let r1 ← (if hasC then do
      let c ← PyVal.subscript politician "content".toList
      let hasN ← PyVal.pyIn c "news_mentions".toList
      if hasN then do
        let nm ← PyVal.subscript c "news_mentions".toList
        let items ← PyVal.pyIter nm
        keywordNewsLoop nameV queryLower query items
      else pure []
    else pure [])
  let r2 ← (if hasC then do
      let c ← PyVal.subscript politician "content".toList
      let hasS ← PyVal.pyIn c "statements".toList
      if hasS then do
        let sts ← PyVal.subscript c "statements".toList
        let items ← PyVal.pyIter sts
        keywordStatementLoop nameV queryLower items
      else pure []
    else pure [])
  pure (r1 ++ r2)

def keywordPolLoop (queryLower query : PyStr) : List PyVal → Except PyErr (List Result)
  | [] => .ok []
  | p :: rest => do
    let r ← keywordPolResults queryLower query p
    let more ← keywordPolLoop queryLower query rest
    pure (r ++ more)

/-- `all_results` of `keyword_search` (the list before sort and cut),
in politician/entry traversal order. -/
def keywordAllResults (politicians : List PyVal) (query : PyStr) :
    Except PyErr (List Result) :=
  keywordPolLoop (pyLower query) query politicians

/--
Embedding of `PoliticianDataSearch.keyword_search`
(`src/scraper/search_utility.py` lines 374–437) over an already-loaded
corpus (`self.politicians`; the lazy load of lines 380–382 is the
out-of-scope loader collaborator).  Scores news mentions and statements,
keeps relevance > 0.3, sorts by relevance descending (stable) and returns
the first `top_k` (default 5).
-/
def keyword_search (politicians : List PyVal) (query : PyStr) (top_k : Nat := 5) :
    Except PyErr (List Result) := do
  let all ← keywordAllResults politicians query
  pure ((sortByRelevance all).take top_k)

/-! ### Semantic search (`search`, lines 134–322) -/

/-- A JSON number as the Python float it denotes: JSON cannot carry a zero
denominator, and a negative one is only a sign-normalized spelling of the
same value, so this is the value-preserving boundary between `PyVal`
numbers and arithmetic. -/
def numVal : PyVal → Option Frac
  | .num q => if q.den = 0 then none else if q.den < 0 then some ⟨-q.num, -q.den⟩ else some q
  | _ => none

def toVecList : List PyVal → Option (List Frac)
  | [] => some []
  | x :: xs =>
    match numVal x, toVecList xs with
    | some f, some v => some (f :: v)
    | _, _ => none

/-- `np.array(embedding)` when the stored embedding is a list of numbers;
anything else makes `np.dot` raise (caught by `cosine_similarity`,
returning `0.0`). -/
def toVec : PyVal → Option (List Frac)
  | .list xs => toVecList xs
  | _ => none

/-- `cosine_similarity(query_embedding, embedding)` with the stored
`embedding` taken from the loaded JSON. -/
def cosineValPy (qEmb : List Frac) (emb : PyVal) : PyFloat :=
  match toVec emb with
  | some v => cosine_similarity (some qEmb) (some v)
  | none => PyFloat.zero

/-- Is this stored embedding Python's `None`? (the `if embedding is None:
continue` test). -/
def PyVal.isNull : PyVal → Bool
  | .null => true
  | _ => false

/-- One (news, embedding) pair of `search_news_mentions` (lines 211–234). -/
def newsSimLoop (query : PyStr) (qEmb : List Frac) :
    List (PyVal × PyVal) → Except PyErr (List Result)
  | [] => .ok []
  | (news, emb) :: rest =>
    if emb.isNull then newsSimLoop query qEmb rest
    else do
      let sim := cosineValPy qEmb emb
      if PyFloat.gtHalf sim then do
        let title ← PyVal.pyGet news "title".toList (.str [])
        let content ← PyVal.pyGet news "content".toList (.str [])
        let snippet ← createSnippetPy content query
        let contentField ←
          (if snippet.isEmpty then sliceAndEllipsis content else pure (PyVal.str snippet))
        let src ← PyVal.pyGet news "source".toList (.str [])
        let url ← PyVal.pyGet news "url".toList (.str [])
        let pd ← PyVal.pyGet news "published_date".toList (.str [])
        let more ← newsSimLoop query qEmb rest
        pure (({ type := "news".toList, title := some title, content := contentField,
                 relevance := sim, source := some src, url := some url,
                 published_date := some pd } : Result) :: more)
      else newsSimLoop query qEmb rest

/-- Embedding of `search_news_mentions` (lines 198–236). -/
def search_news_mentions (query : PyStr) (qEmb : List Frac) (politician : PyVal) :
    Except PyErr (List Result) := do
  let contentD ← PyVal.pyGet politician "content".toList (.dict [])
  let nm ← PyVal.pyGet contentD "news_mentions".toList (.list [])
  let semD ← PyVal.pyGet politician "semantic_index".toList (.dict [])
  let nemb ← PyVal.pyGet semD "news_embeddings".toList (.list [])
  if nm.truthy = false then pure []
  else if nemb.truthy = false then pure []
  else do
    let l1 ← PyVal.pyLen nm
    let l2 ← PyVal.pyLen nemb
    if l1 ≠ l2 then pure []
    else do
      let items1 ← PyVal.pyIter nm
      let items2 ← PyVal.pyIter nemb
      newsSimLoop query qEmb (items1.zip items2)

/-- One (statement, embedding) pair of `search_statements` (lines 251–264). -/
def stmtSimLoop (qEmb : List Frac) :
    List (PyVal × PyVal) → Except PyErr (List Result)
  | [] => .ok []
  | (st, emb) :: rest =>
    if emb.isNull then stmtSimLoop qEmb rest
    else do
      let sim := cosineValPy qEmb emb
      if PyFloat.gtHalf sim then do
        let content ← PyVal.pyGet st "text".toList (.str [])
        let src ← PyVal.pyGet st "source".toList (.str [])
        let more ← stmtSimLoop qEmb rest
        pure (({ type := "statement".toList, content := content,
                 relevance := sim, source := some src } : Result) :: more)
      else stmtSimLoop qEmb rest

/-- Embedding of `search_statements` (lines 238–266). -/
def search_statements (qEmb : List Frac) (politician : PyVal) :
    Except PyErr (List Result) := do
  let contentD ← PyVal.pyGet politician "content".toList (.dict [])
  let sts ← PyVal.pyGet contentD "statements".toList (.list [])
  let semD ← PyVal.pyGet politician "semantic_index".toList (.dict [])
  let semb ← PyVal.pyGet semD "statement_embeddings".toList (.list [])
  if sts.truthy = false then pure []
  else if semb.truthy = false then pure []
  else do
    let l1 ← PyVal.pyLen sts
    let l2 ← PyVal.pyLen semb
    if l1 ≠ l2 then pure []
    else do
      let items1 ← PyVal.pyIter sts
      let items2 ← PyVal.pyIter semb
      stmtSimLoop qEmb (items1.zip items2)

/-- One (speech, embedding) pair of `search_speeches` (lines 281–298). -/
def speechSimLoop (query : PyStr) (qEmb : List Frac) :
    List (PyVal × PyVal) → Except PyErr (List Result)
  | [] => .ok []
  | (sp, emb) :: rest =>
    if emb.isNull then speechSimLoop query qEmb rest
    else do
      let sim := cosineValPy qEmb emb
      if PyFloat.gtHalf sim then do
        let text ← PyVal.pyGet sp "text".toList (.str [])
        let snippet ← createSnippetPy text query
        let contentField ←
          (if snippet.isEmpty then sliceAndEllipsis text else pure (PyVal.str snippet))
        let src ← PyVal.pyGet sp "source".toList (.str [])
        let more ← speechSimLoop query qEmb rest
        pure (({ type := "speech".toList, content := contentField,
                 relevance := sim, source := some src } : Result) :: more)
      else speechSimLoop query qEmb rest

/-- Embedding of `search_speeches` (lines 268–300). -/
def search_speeches (query : PyStr) (qEmb : List Frac) (politician : PyVal) :
    Except PyErr (List Result) := do
  let contentD ← PyVal.pyGet politician "content".toList (.dict [])
  let sps ← PyVal.pyGet contentD "speeches".toList (.list [])
  let semD ← PyVal.pyGet politician "semantic_index".toList (.dict [])
  let semb ← PyVal.pyGet semD "speech_embeddings".toList (.list [])
  if sps.truthy = false then pure []
  else if semb.truthy = false then pure []
  else do
    let l1 ← PyVal.pyLen sps
    let l2 ← PyVal.pyLen semb
    if l1 ≠ l2 then pure []
    else do
      let items1 ← PyVal.pyIter sps
      let items2 ← PyVal.pyIter semb
      speechSimLoop query qEmb (items1.zip items2)

/-- Embedding of `search_bio` (lines 302–322). -/
def search_bio (query : PyStr) (qEmb : List Frac) (politician : PyVal) :
    Except PyErr (Option Result) := do
  let bioText ← PyVal.pyGet politician "biographical_summary".toList (.str [])
  let semD ← PyVal.pyGet politician "semantic_index".toList (.dict [])
  let bioEmb ← PyVal.pyGet semD "bio_embedding".toList .null
  if bioText.truthy = false then pure none
  else if bioEmb.truthy = false then pure none
  else do
    let sim := cosineValPy qEmb bioEmb
    if PyFloat.gtHalf sim then do
      let snippet ← createSnippetPy bioText query
      let contentField ←
        (if snippet.isEmpty then sliceAndEllipsis bioText else pure (PyVal.str snippet))
      pure (some { type := "bio".toList, content := contentField, relevance := sim })
    else pure none

/-- One politician of the semantic loop (lines 158–192): news, statements,
speeches, bio; every surviving result gets the politician name attached. -/
def searchPolResults (query : PyStr) (qEmb : List Frac) (politician : PyVal) :
    Except PyErr (List Result) := do
  let nameV ← PyVal.pyGet politician "name".toList (.str "Unknown".toList)
  let hasC ← PyVal.pyIn politician "content".toList
  let r1 ← (if hasC then do
      let c ← PyVal.subscript politician "content".toList
      let hasN ← PyVal.pyIn c "news_mentions".toList
      if hasN then search_news_mentions query qEmb politician else pure []
    else pure [])
  let r2 ← (if hasC then do
      let c ← PyVal.subscript politician "content".toList
      let hasS ← PyVal.pyIn c "statements".toList
      if hasS then search_statements qEmb politician else pure []
    else pure [])
  let r3 ← (if hasC then do
      let c ← PyVal.subscript politician "content".toList
      let hasSp ← PyVal.pyIn c "speeches".toList
      if hasSp then search_speeches query qEmb politician else pure []
    else pure [])
  let bioR ← search_bio query qEmb politician
  let rall := r1 ++ r2 ++ r3 ++ (match bioR with | some r => [r] | none => [])
  pure (rall.map (fun r => { r with politician := some nameV }))

def searchPolLoop (query : PyStr) (qEmb : List Frac) : List PyVal → Except PyErr (List Result)
  | [] => .ok []
  | p :: rest => do
    let r ← searchPolResults query qEmb p
    let more ← searchPolLoop query qEmb rest
    pure (r ++ more)

/-- `all_results` of `search` (before sort and cut). -/
def searchAllResults (politicians : List PyVal) (query : PyStr) (qEmb : List Frac) :
    Except PyErr (List Result) :=
  searchPolLoop query qEmb politicians

/--
Embedding of `PoliticianDataSearch.search`
(`src/scraper/search_utility.py` lines 134–196) over an already-loaded
corpus.  The query embedding is the output of the external
sentence-transformer (`generate_query_embedding`); when it is unavailable
(`None`), `search` logs and returns the empty list.  Otherwise every entry
category of every politician is scored against it, survivors
(similarity > 0.5) are sorted by relevance descending (stable) and the
first `top_k` (default 5) are returned.
-/
def search (politicians : List PyVal) (queryEmbedding : Option (List Frac))
    (query : PyStr) (top_k : Nat := 5) : Except PyErr (List Result) := do
  match queryEmbedding with
  | none => pure []
  | some qEmb => do
    let all ← searchAllResults politicians query qEmb
    pure ((sortByRelevance all).take top_k)

/-! ### Invariants of the produced result lists -/

/-- What holds of every result `keyword_search` accumulates: a valid (real,
positive-denominator) relevance and a type drawn from the two categories the
function scores. -/
def KwOk (r : Result) : Prop :=
  r.relevance.valid ∧ (r.type = "news".toList ∨ r.type = "statement".toList)

theorem keywordNewsResult_ok {nameV : PyVal} {ql q : PyStr} {news : PyVal} {r : Result}
    (h : keywordNewsResult nameV ql q news = .ok (some r)) : KwOk r := by
  unfold keywordNewsResult at h
  rw [bind_ok_iff] at h; obtain ⟨titleV, _, h⟩ := h
  rw [bind_ok_iff] at h; obtain ⟨title, _, h⟩ := h
  rw [bind_ok_iff] at h; obtain ⟨contentV, _, h⟩ := h
  rw [bind_ok_iff] at h; obtain ⟨content, _, h⟩ := h
  dsimp only at h
  split at h
  · rw [if_neg (by decide), pure_ok_iff] at h
    cases h
  · rename_i hne
    split at h
    · rw [bind_ok_iff] at h; obtain ⟨cs, _, h⟩ := h
      rw [bind_ok_iff] at h; obtain ⟨snippet, _, h⟩ := h
      rw [bind_ok_iff] at h; obtain ⟨title2, _, h⟩ := h
      rw [bind_ok_iff] at h; obtain ⟨contentField, _, h⟩ := h
      rw [bind_ok_iff] at h; obtain ⟨src, _, h⟩ := h
      rw [bind_ok_iff] at h; obtain ⟨url, _, h⟩ := h
      rw [bind_ok_iff] at h; obtain ⟨pd, _, h⟩ := h
      rw [pure_ok_iff] at h
      cases h
      refine ⟨⟨?_, by decide, by decide⟩, Or.inl rfl⟩
      show (0 : Int) < ((pySplitWs ql).length : Int)
      have hnil : pySplitWs ql ≠ [] := fun heq => hne (by rw [heq]; rfl)
      exact_mod_cast List.length_pos.2 hnil
    · rw [pure_ok_iff] at h
      cases h

theorem keywordStatementResult_ok {nameV : PyVal} {ql : PyStr} {st : PyVal} {r : Result}
    (h : keywordStatementResult nameV ql st = .ok (some r)) : KwOk r := by
  unfold keywordStatementResult at h
  rw [bind_ok_iff] at h; obtain ⟨textV, _, h⟩ := h
  rw [bind_ok_iff] at h; obtain ⟨text, _, h⟩ := h
  dsimp only at h
  split at h
  · rw [if_neg (by decide), pure_ok_iff] at h
    cases h
  · rename_i hne
    split at h
    · rw [bind_ok_iff] at h; obtain ⟨content, _, h⟩ := h
      rw [bind_ok_iff] at h; obtain ⟨src, _, h⟩ := h
      rw [pure_ok_iff] at h
      cases h
      refine ⟨⟨?_, by decide, by decide⟩, Or.inr rfl⟩
      show (0 : Int) < ((pySplitWs ql).length : Int)
      have hnil : pySplitWs ql ≠ [] := fun heq => hne (by rw [heq]; rfl)
      exact_mod_cast List.length_pos.2 hnil
    · rw [pure_ok_iff] at h
      cases h

theorem keywordNewsLoop_ok {nameV : PyVal} {ql q : PyStr} :
    ∀ {xs : List PyVal} {es : List Result},
      keywordNewsLoop nameV ql q xs = .ok es → ∀ r ∈ es, KwOk r := by
  intro xs
  induction xs with
  | nil => intro es h r hr; unfold keywordNewsLoop at h; cases h; cases hr
  | cons n rest ih =>
    intro es h r hr
    unfold keywordNewsLoop at h
    rw [bind_ok_iff] at h; obtain ⟨ropt, hopt, h⟩ := h
    rw [bind_ok_iff] at h; obtain ⟨more, hmore, h⟩ := h
    rw [pure_ok_iff] at h
    subst h
    cases ropt with
    | none => exact ih hmore r hr
    | some x =>
      rcases List.mem_cons.1 hr with rfl | hr'
      · exact keywordNewsResult_ok hopt
      · exact ih hmore r hr'

theorem keywordStatementLoop_ok {nameV : PyVal} {ql : PyStr} :
    ∀ {xs : List PyVal} {es : List Result},
      keywordStatementLoop nameV ql xs = .ok es → ∀ r ∈ es, KwOk r := by
  intro xs
  induction xs with
  | nil => intro es h r hr; unfold keywordStatementLoop at h; cases h; cases hr
  | cons st rest ih =>
    intro es h r hr
    unfold keywordStatementLoop at h
    rw [bind_ok_iff] at h; obtain ⟨ropt, hopt, h⟩ := h
    rw [bind_ok_iff] at h; obtain ⟨more, hmore, h⟩ := h
    rw [pure_ok_iff] at h
    subst h
    cases ropt with
    | none => exact ih hmore r hr
    | some x =>
      rcases List.mem_cons.1 hr with rfl | hr'
      · exact keywordStatementResult_ok hopt
      · exact ih hmore r hr'

theorem keywordPolResults_ok {ql q : PyStr} {p : PyVal} {es : List Result}
    (h : keywordPolResults ql q p = .ok es) : ∀ r ∈ es, KwOk r := by
  unfold keywordPolResults at h
  rw [bind_ok_iff] at h; obtain ⟨nameV, _, h⟩ := h
  rw [bind_ok_iff] at h; obtain ⟨hasC, _, h⟩ := h
  rw [bind_ok_iff] at h; obtain ⟨r1, hr1, h⟩ := h
  rw [bind_ok_iff] at h; obtain ⟨r2, hr2, h⟩ := h
  rw [pure_ok_iff] at h
  subst h
  have k1 : ∀ r ∈ r1, KwOk r := by
    cases hasC with
    | false => rw [if_neg (by simp), pure_ok_iff] at hr1; subst hr1; intro r hr; cases hr
    | true =>
      rw [if_pos rfl] at hr1
      rw [bind_ok_iff] at hr1; obtain ⟨c, _, hr1⟩ := hr1
      rw [bind_ok_iff] at hr1; obtain ⟨hasN, _, hr1⟩ := hr1
      cases hasN with
      | false => rw [if_neg (by simp), pure_ok_iff] at hr1; subst hr1; intro r hr; cases hr
      | true =>
        rw [if_pos rfl] at hr1
        rw [bind_ok_iff] at hr1; obtain ⟨nm, _, hr1⟩ := hr1
        rw [bind_ok_iff] at hr1; obtain ⟨items, _, hr1⟩ := hr1
        exact keywordNewsLoop_ok hr1
  have k2 : ∀ r ∈ r2, KwOk r := by
    cases hasC with
    | false => rw [if_neg (by simp), pure_ok_iff] at hr2; subst hr2; intro r hr; cases hr
    | true =>
      rw [if_pos rfl] at hr2
      rw [bind_ok_iff] at hr2; obtain ⟨c, _, hr2⟩ := hr2
      rw [bind_ok_iff] at hr2; obtain ⟨hasS, _, hr2⟩ := hr2
      cases hasS with
      | false => rw [if_neg (by simp), pure_ok_iff] at hr2; subst hr2; intro r hr; cases hr
      | true =>
        rw [if_pos rfl] at hr2
        rw [bind_ok_iff] at hr2; obtain ⟨sts, _, hr2⟩ := hr2
        rw [bind_ok_iff] at hr2; obtain ⟨items, _, hr2⟩ := hr2
        exact keywordStatementLoop_ok hr2
  intro r hr
  rcases List.mem_append.1 hr with hr' | hr'
  · exact k1 r hr'
  · exact k2 r hr'

theorem keywordAllResults_ok {politicians : List PyVal} {query : PyStr} {es : List Result}
    (h : keywordAllResults politicians query = .ok es) : ∀ r ∈ es, KwOk r := by
  unfold keywordAllResults at h
  revert es h
  induction politicians with
  | nil => intro es h r hr; unfold keywordPolLoop at h; cases h; cases hr
  | cons p rest ih =>
    intro es h r hr
    unfold keywordPolLoop at h
    rw [bind_ok_iff] at h; obtain ⟨r1, h1, h⟩ := h
    rw [bind_ok_iff] at h; obtain ⟨more, hmore, h⟩ := h
    rw [pure_ok_iff] at h
    subst h
    rcases List.mem_append.1 hr with hr' | hr'
    · exact keywordPolResults_ok h1 r hr'
    · exact ih hmore r hr'

/-! ### Validity of semantic-search relevances -/

theorem numVal_wf {x : PyVal} {f : Frac} (h : numVal x = some f) : f.wf := by
  cases x with
  | num q =>
    unfold numVal at h
    dsimp only at h
    by_cases h0 : q.den = 0
    · rw [if_pos h0] at h; cases h
    · rw [if_neg h0] at h
      by_cases hneg : q.den < 0
      · rw [if_pos hneg] at h
        cases h
        show (0 : Int) < -q.den
        omega
      · rw [if_neg hneg] at h
        have hqf := Option.some_inj.1 h
        subst hqf
        show (0 : Int) < q.den
        omega
  | str s => exact Option.noConfusion h
  | bool b => exact Option.noConfusion h
  | null => exact Option.noConfusion h
  | list xs => exact Option.noConfusion h
  | dict kvs => exact Option.noConfusion h

theorem toVecList_wf : ∀ {xs : List PyVal} {v : List Frac},
    toVecList xs = some v → ∀ f ∈ v, f.wf := by
  intro xs
  induction xs with
  | nil => intro v h f hf; cases h; cases hf
  | cons x rest ih =>
    intro v h f hf
    unfold toVecList at h
    cases hn : numVal x with
    | none => rw [hn] at h; cases h
    | some g =>
      rw [hn] at h
      cases ht : toVecList rest with
      | none => rw [ht] at h; cases h
      | some w =>
        rw [ht] at h
        cases h
        rcases List.mem_cons.1 hf with rfl | hf'
        · exact numVal_wf hn
        · exact ih ht f hf'

theorem wf_dotF : ∀ {a b : List Frac}, (∀ f ∈ a, f.wf) → (∀ f ∈ b, f.wf) →
    (dotF a b).wf := by
  intro a
  induction a with
  | nil =>
    intro b _ _
    cases b with
    | nil => exact Int.zero_lt_one
    | cons y ys => exact Int.zero_lt_one
  | cons x xs ih =>
    intro b ha hb
    cases b with
    | nil => exact Int.zero_lt_one
    | cons y ys =>
      exact Frac.wf_add
        (Frac.wf_mul (ha x (by simp)) (hb y (by simp)))
        (ih (fun f hf => ha f (List.mem_cons_of_mem x hf))
          (fun f hf => hb f (List.mem_cons_of_mem y hf)))

theorem normSq_nonneg : ∀ {v : List Frac}, (∀ f ∈ v, f.wf) → 0 ≤ (normSq v).toQ := by
  intro v
  induction v with
  | nil =>
    intro _
    rw [show normSq [] = Frac.ofInt 0 from rfl, Frac.toQ_ofInt]
    norm_num
  | cons x xs ih =>
    intro hv
    have hx : x.wf := hv x (by simp)
    have hxs : ∀ f ∈ xs, f.wf := fun f hf => hv f (List.mem_cons_of_mem x hf)
    have e : normSq (x :: xs) = Frac.add (Frac.mul x x) (normSq xs) := rfl
    rw [e, Frac.toQ_add (Frac.wf_mul hx hx) (show (normSq xs).wf from wf_dotF hxs hxs),
      Frac.toQ_mul hx hx]
    have h1 : 0 ≤ x.toQ * x.toQ := mul_self_nonneg _
    have h2 : 0 ≤ (normSq xs).toQ := ih hxs
    linarith

theorem frac_num_pos {f : Frac} (hwf : f.wf) (h : 0 < f.toQ) : 0 < f.num := by
  have hden := Frac.den_pos_q hwf
  have hq : (0 : ℚ) < (f.num : ℚ) := by
    have hm := mul_pos h hden
    rw [Frac.toQ, div_mul_cancel₀ _ hden.ne'] at hm
    exact hm
  exact_mod_cast hq

theorem cosine_gtHalf_valid {a b : List Frac} (ha : ∀ f ∈ a, f.wf)
    (hb : ∀ f ∈ b, f.wf)
    (h : PyFloat.gtHalf (cosineCore a b) = true) :
    (cosineCore a b).valid := by
  unfold cosineCore at h ⊢
  dsimp only at h ⊢
  split at h
  · exact absurd h (by decide)
  · rename_i hlen
    rw [if_neg hlen]
    split at h
    · rename_i hz
      rw [if_pos hz]
      split at h
      · exact absurd h (by decide)
      · rename_i hd
        split at h
        · rename_i hpos
          rw [if_neg hd, if_pos hpos]
          trivial
        · exact absurd h (by decide)
    · rename_i hz
      rw [if_neg hz]
      refine ⟨wf_dotF ha hb, Frac.wf_mul (wf_dotF ha ha) (wf_dotF hb hb), ?_⟩
      have hwf2 : (Frac.mul (normSq a) (normSq b)).wf :=
        Frac.wf_mul (wf_dotF ha ha) (wf_dotF hb hb)
      have hne : (Frac.mul (normSq a) (normSq b)).toQ ≠ 0 := by
        intro hc
        apply hz
        rw [frac_zero_def, Frac.eq_iff hwf2 (Frac.wf_ofInt 0), Frac.toQ_ofInt]
        exact_mod_cast hc
      have hnn : 0 ≤ (Frac.mul (normSq a) (normSq b)).toQ := by
        rw [Frac.toQ_mul (show (normSq a).wf from wf_dotF ha ha)
          (show (normSq b).wf from wf_dotF hb hb)]
        exact mul_nonneg (normSq_nonneg ha) (normSq_nonneg hb)
      exact frac_num_pos hwf2 (lt_of_le_of_ne hnn (Ne.symm hne))

theorem cosineValPy_gtHalf_valid {qEmb : List Frac} {emb : PyVal}
    (hq : ∀ f ∈ qEmb, f.wf)
    (h : PyFloat.gtHalf (cosineValPy qEmb emb) = true) :
    (cosineValPy qEmb emb).valid := by
  unfold cosineValPy at h ⊢
  cases hv : toVec emb with
  | none =>
    rw [hv] at h
    dsimp only at h
    exact absurd h (by decide)
  | some v =>
    rw [hv] at h
    dsimp only at h ⊢
    have hvwf : ∀ f ∈ v, f.wf := by
      unfold toVec at hv
      cases emb with
      | list xs => exact toVecList_wf hv
      | str ss => exact Option.noConfusion hv
      | num q => exact Option.noConfusion hv
      | bool bb => exact Option.noConfusion hv
      | null => exact Option.noConfusion hv
      | dict kvs => exact Option.noConfusion hv
    exact cosine_gtHalf_valid hq hvwf h

theorem newsSimLoop_valid {query : PyStr} {qEmb : List Frac} (hq : ∀ f ∈ qEmb, f.wf) :
    ∀ {ps : List (PyVal × PyVal)} {es : List Result},
      newsSimLoop query qEmb ps = .ok es → ∀ r ∈ es, r.relevance.valid := by
  intro ps
  induction ps with
  | nil => intro es h r hr; cases h; cases hr
  | cons pe rest ih =>
    intro es h r hr
    obtain ⟨news, emb⟩ := pe
    unfold newsSimLoop at h
    dsimp only at h
    split at h
    · exact ih h r hr
    · split at h
      · rename_i hgt
        rw [bind_ok_iff] at h; obtain ⟨title, _, h⟩ := h
        rw [bind_ok_iff] at h; obtain ⟨content, _, h⟩ := h
        rw [bind_ok_iff] at h; obtain ⟨snippet, _, h⟩ := h
        rw [bind_ok_iff] at h; obtain ⟨contentField, _, h⟩ := h
        rw [bind_ok_iff] at h; obtain ⟨src, _, h⟩ := h
        rw [bind_ok_iff] at h; obtain ⟨url, _, h⟩ := h
        rw [bind_ok_iff] at h; obtain ⟨pd, _, h⟩ := h
        rw [bind_ok_iff] at h; obtain ⟨more, hmore, h⟩ := h
        rw [pure_ok_iff] at h
        subst h
        rcases List.mem_cons.1 hr with rfl | hr'
        · exact cosineValPy_gtHalf_valid hq hgt
        · exact ih hmore r hr'
      · exact ih h r hr

theorem stmtSimLoop_valid {qEmb : List Frac} (hq : ∀ f ∈ qEmb, f.wf) :
    ∀ {ps : List (PyVal × PyVal)} {es : List Result},
      stmtSimLoop qEmb ps = .ok es → ∀ r ∈ es, r.relevance.valid := by
  intro ps
  induction ps with
  | nil => intro es h r hr; cases h; cases hr
  | cons pe rest ih =>
    intro es h r hr
    obtain ⟨st, emb⟩ := pe
    unfold stmtSimLoop at h
    dsimp only at h
    split at h
    · exact ih h r hr
    · split at h
      · rename_i hgt
        rw [bind_ok_iff] at h; obtain ⟨content, _, h⟩ := h
        rw [bind_ok_iff] at h; obtain ⟨src, _, h⟩ := h
        rw [bind_ok_iff] at h; obtain ⟨more, hmore, h⟩ := h
        rw [pure_ok_iff] at h
        subst h
        rcases List.mem_cons.1 hr with rfl | hr'
        · exact cosineValPy_gtHalf_valid hq hgt
        · exact ih hmore r hr'
      · exact ih h r hr

theorem speechSimLoop_valid {query : PyStr} {qEmb : List Frac} (hq : ∀ f ∈ qEmb, f.wf) :
    ∀ {ps : List (PyVal × PyVal)} {es : List Result},
      speechSimLoop query qEmb ps = .ok es → ∀ r ∈ es, r.relevance.valid := by
  intro ps
  induction ps with
  | nil => intro es h r hr; cases h; cases hr
  | cons pe rest ih =>
    intro es h r hr
    obtain ⟨sp, emb⟩ := pe
    unfold speechSimLoop at h
    dsimp only at h
    split at h
    · exact ih h r hr
    · split at h
      · rename_i hgt
        rw [bind_ok_iff] at h; obtain ⟨text, _, h⟩ := h
        rw [bind_ok_iff] at h; obtain ⟨snippet, _, h⟩ := h
        rw [bind_ok_iff] at h; obtain ⟨contentField, _, h⟩ := h
        rw [bind_ok_iff] at h; obtain ⟨src, _, h⟩ := h
        rw [bind_ok_iff] at h; obtain ⟨more, hmore, h⟩ := h
        rw [pure_ok_iff] at h
        subst h
        rcases List.mem_cons.1 hr with rfl | hr'
        · exact cosineValPy_gtHalf_valid hq hgt
        · exact ih hmore r hr'
      · exact ih h r hr

theorem search_news_mentions_valid {query : PyStr} {qEmb : List Frac} {p : PyVal}
    {es : List Result} (hq : ∀ f ∈ qEmb, f.wf)
    (h : search_news_mentions query qEmb p = .ok es) : ∀ r ∈ es, r.relevance.valid := by
  unfold search_news_mentions at h
  rw [bind_ok_iff] at h; obtain ⟨contentD, _, h⟩ := h
  rw [bind_ok_iff] at h; obtain ⟨nm, _, h⟩ := h
  rw [bind_ok_iff] at h; obtain ⟨semD, _, h⟩ := h
  rw [bind_ok_iff] at h; obtain ⟨nemb, _, h⟩ := h
  split at h
  · rw [pure_ok_iff] at h; subst h; intro r hr; cases hr
  · split at h
    · rw [pure_ok_iff] at h; subst h; intro r hr; cases hr
    · rw [bind_ok_iff] at h; obtain ⟨l1, _, h⟩ := h
      rw [bind_ok_iff] at h; obtain ⟨l2, _, h⟩ := h
      split at h
      · rw [pure_ok_iff] at h; subst h; intro r hr; cases hr
      · rw [bind_ok_iff] at h; obtain ⟨i1, _, h⟩ := h
        rw [bind_ok_iff] at h; obtain ⟨i2, _, h⟩ := h
        exact newsSimLoop_valid hq h

theorem search_statements_valid {qEmb : List Frac} {p : PyVal} {es : List Result}
    (hq : ∀ f ∈ qEmb, f.wf)
    (h : search_statements qEmb p = .ok es) : ∀ r ∈ es, r.relevance.valid := by
  unfold search_statements at h
  rw [bind_ok_iff] at h; obtain ⟨contentD, _, h⟩ := h
  rw [bind_ok_iff] at h; obtain ⟨sts, _, h⟩ := h
  rw [bind_ok_iff] at h; obtain ⟨semD, _, h⟩ := h
  rw [bind_ok_iff] at h; obtain ⟨semb, _, h⟩ := h
  split at h
  · rw [pure_ok_iff] at h; subst h; intro r hr; cases hr
  · split at h
    · rw [pure_ok_iff] at h; subst h; intro r hr; cases hr
    · rw [bind_ok_iff] at h; obtain ⟨l1, _, h⟩ := h
      rw [bind_ok_iff] at h; obtain ⟨l2, _, h⟩ := h
      split at h
      · rw [pure_ok_iff] at h; subst h; intro r hr; cases hr
      · rw [bind_ok_iff] at h; obtain ⟨i1, _, h⟩ := h
        rw [bind_ok_iff] at h; obtain ⟨i2, _, h⟩ := h
        exact stmtSimLoop_valid hq h

theorem search_speeches_valid {query : PyStr} {qEmb : List Frac} {p : PyVal}
    {es : List Result} (hq : ∀ f ∈ qEmb, f.wf)
    (h : search_speeches query qEmb p = .ok es) : ∀ r ∈ es, r.relevance.valid := by
  unfold search_speeches at h
  rw [bind_ok_iff] at h; obtain ⟨contentD, _, h⟩ := h
  rw [bind_ok_iff] at h; obtain ⟨sps, _, h⟩ := h
  rw [bind_ok_iff] at h; obtain ⟨semD, _, h⟩ := h
  rw [bind_ok_iff] at h; obtain ⟨semb, _, h⟩ := h
  split at h
  · rw [pure_ok_iff] at h; subst h; intro r hr; cases hr
  · split at h
    · rw [pure_ok_iff] at h; subst h; intro r hr; cases hr
    · rw [bind_ok_iff] at h; obtain ⟨l1, _, h⟩ := h
      rw [bind_ok_iff] at h; obtain ⟨l2, _, h⟩ := h
      split at h
      · rw [pure_ok_iff] at h; subst h; intro r hr; cases hr
      · rw [bind_ok_iff] at h; obtain ⟨i1, _, h⟩ := h
        rw [bind_ok_iff] at h; obtain ⟨i2, _, h⟩ := h
        exact speechSimLoop_valid hq h

theorem search_bio_valid {query : PyStr} {qEmb : List Frac} {p : PyVal} {r : Result}
    (hq : ∀ f ∈ qEmb, f.wf)
    (h : search_bio query qEmb p = .ok (some r)) : r.relevance.valid := by
  unfold search_bio at h
  rw [bind_ok_iff] at h; obtain ⟨bioText, _, h⟩ := h
  rw [bind_ok_iff] at h; obtain ⟨semD, _, h⟩ := h
  rw [bind_ok_iff] at h; obtain ⟨bioEmb, _, h⟩ := h
  split at h
  · rw [pure_ok_iff] at h; cases h
  · split at h
    · rw [pure_ok_iff] at h; cases h
    · dsimp only at h
      split at h
      · rename_i hgt
        rw [bind_ok_iff] at h; obtain ⟨snippet, _, h⟩ := h
        rw [bind_ok_iff] at h; obtain ⟨contentField, _, h⟩ := h
        rw [pure_ok_iff] at h
        cases h
        exact cosineValPy_gtHalf_valid hq hgt
      · rw [pure_ok_iff] at h; cases h

theorem searchPolResults_valid {query : PyStr} {qEmb : List Frac} {p : PyVal}
    {es : List Result} (hq : ∀ f ∈ qEmb, f.wf)
    (h : searchPolResults query qEmb p = .ok es) : ∀ r ∈ es, r.relevance.valid := by
  unfold searchPolResults at h
  rw [bind_ok_iff] at h; obtain ⟨nameV, _, h⟩ := h
  rw [bind_ok_iff] at h; obtain ⟨hasC, _, h⟩ := h
  rw [bind_ok_iff] at h; obtain ⟨r1, h1, h⟩ := h
  rw [bind_ok_iff] at h; obtain ⟨r2, h2, h⟩ := h
  rw [bind_ok_iff] at h; obtain ⟨r3, h3, h⟩ := h
  rw [bind_ok_iff] at h; obtain ⟨bioR, hbio, h⟩ := h
  rw [pure_ok_iff] at h
  subst h
  have v1 : ∀ r ∈ r1, r.relevance.valid := by
    cases hasC with
    | false => rw [if_neg (by simp), pure_ok_iff] at h1; subst h1; intro r hr; cases hr
    | true =>
      rw [if_pos rfl] at h1
      rw [bind_ok_iff] at h1; obtain ⟨c, _, h1⟩ := h1
      rw [bind_ok_iff] at h1; obtain ⟨hasN, _, h1⟩ := h1
      cases hasN with
      | false => rw [if_neg (by simp), pure_ok_iff] at h1; subst h1; intro r hr; cases hr
      | true =>
        rw [if_pos rfl] at h1
        exact search_news_mentions_valid hq h1
  have v2 : ∀ r ∈ r2, r.relevance.valid := by
    cases hasC with
    | false => rw [if_neg (by simp), pure_ok_iff] at h2; subst h2; intro r hr; cases hr
    | true =>
      rw [if_pos rfl] at h2
      rw [bind_ok_iff] at h2; obtain ⟨c, _, h2⟩ := h2
      rw [bind_ok_iff] at h2; obtain ⟨hasS, _, h2⟩ := h2
      cases hasS with
      | false => rw [if_neg (by simp), pure_ok_iff] at h2; subst h2; intro r hr; cases hr
      | true =>
        rw [if_pos rfl] at h2
        exact search_statements_valid hq h2
  have v3 : ∀ r ∈ r3, r.relevance.valid := by
    cases hasC with
    | false => rw [if_neg (by simp), pure_ok_iff] at h3; subst h3; intro r hr; cases hr
    | true =>
      rw [if_pos rfl] at h3
      rw [bind_ok_iff] at h3; obtain ⟨c, _, h3⟩ := h3
      rw [bind_ok_iff] at h3; obtain ⟨hasSp, _, h3⟩ := h3
      cases hasSp with
      | false => rw [if_neg (by simp), pure_ok_iff] at h3; subst h3; intro r hr; cases hr
      | true =>
        rw [if_pos rfl] at h3
        exact search_speeches_valid hq h3
  intro r hr
  obtain ⟨x, hx, rfl⟩ := List.mem_map.1 hr
  show ({ x with politician := some nameV } : Result).relevance.valid
  have hxv : x.relevance.valid := by
    rcases List.mem_append.1 hx with hx' | hxb
    · rcases List.mem_append.1 hx' with hx'' | hx3
      · rcases List.mem_append.1 hx'' with h1m | h2m
        · exact v1 x h1m
        · exact v2 x h2m
      · exact v3 x hx3
    · cases bioR with
      | none => cases hxb
      | some rb =>
        rcases List.mem_singleton.1 hxb with rfl
        exact search_bio_valid hq hbio
  exact hxv

theorem searchAllResults_valid {politicians : List PyVal} {query : PyStr}
    {qEmb : List Frac} {es : List Result} (hq : ∀ f ∈ qEmb, f.wf)
    (h : searchAllResults politicians query qEmb = .ok es) :
    ∀ r ∈ es, r.relevance.valid := by
  unfold searchAllResults at h
  revert es h
  induction politicians with
  | nil => intro es h r hr; unfold searchPolLoop at h; cases h; cases hr
  | cons p rest ih =>
    intro es h r hr
    unfold searchPolLoop at h
    rw [bind_ok_iff] at h; obtain ⟨r1, h1, h⟩ := h
    rw [bind_ok_iff] at h; obtain ⟨more, hmore, h⟩ := h
    rw [pure_ok_iff] at h
    subst h
    rcases List.mem_append.1 hr with hr' | hr'
    · exact searchPolResults_valid hq h1 r hr'
    · exact ih hmore r hr'


/-! ### C4: the keyword relevance formula -/

/-- The relevance `keyword_search` actually computes for one statement
(lines 421–424): query tokens counted with multiplicity, tokens of length
at most 2 never match (but stay in the denominator), and the denominator is
the full token count of `query.lower().split()`. -/
def kwStatementScore (query text : PyStr) : Frac :=
  let query_terms := pySplitWs (pyLower query)
  let matchCount := (query_terms.filter (fun t => 2 < t.length && chSub t (pyLower text))).length
  if query_terms.isEmpty then 0 else ⟨(matchCount : Int), (query_terms.length : Int)⟩

/-- First-occurrence deduplication of a token list (spec-side helper). -/
def distinctTerms : List PyStr → List PyStr
  | [] => []
  | t :: rest => t :: (distinctTerms rest).filter (fun u => u != t)

/-- The relevance formula as the SPEC states it (distinct query terms in
both numerator and denominator, terms of length at most 2 excluded from
scoring); written from the spec wording, to be compared against
`kwStatementScore`. -/
def specDistinctRelevance (query text : PyStr) : Frac :=
  let terms := distinctTerms (pySplitWs (pyLower query))
  let present := (terms.filter (fun t => 2 < t.length && chSub t (pyLower text))).length
  if terms.isEmpty then 0 else ⟨(present : Int), (terms.length : Int)⟩

/-- A one-statement politician, as `keyword_search` reads it. -/
def mkStatementPol (text src : PyStr) : PyVal :=
  .dict [("name".toList, .str "P".toList),
         ("content".toList, .dict [("statements".toList,
            .list [.dict [("text".toList, .str text),
                          ("source".toList, .str src)]])])]

/-- The result record `keyword_search` appends for that statement when the
threshold passes (lines 427–433). -/
def mkStatementResult (text src : PyStr) (rel : Frac) : Result :=
  { type := "statement".toList, politician := some (PyVal.str "P".toList),
    content := PyVal.str text, relevance := .ratio rel 1,
    source := some (PyVal.str src) }

def c4text : PyStr := "We must raise tax revenue.".toList

def c4query : PyStr := "tax tax other".toList

/-- C4, counterexample.  On the statement "We must raise tax revenue." and
the query "tax tax other", the code scores 2/3 (the duplicated token "tax"
is counted twice in the numerator, and all three tokens — including the
short one the claim excludes — stay in the denominator), while the claimed
distinct-terms formula gives 1/2; the two are different rationals. -/
theorem C4_counterexample_relevance_multiplicity :
    (keyword_search [mkStatementPol c4text "press".toList] c4query 5).toOption.map
        (List.map Result.relevance) =
      some [PyFloat.ratio ⟨2, 3⟩ 1] ∧
    specDistinctRelevance c4query c4text = ⟨1, 2⟩ ∧
    Frac.eq ⟨2, 3⟩ ⟨1, 2⟩ = false :=
  ⟨rfl, rfl, rfl⟩

/-- C4 (amended): for every query and every statement entry that clears the
0.3 threshold, `keyword_search` assigns relevance
(number of query tokens, counted WITH multiplicity, of length > 2 occurring
as substrings of the lowercased text) / (total number of query tokens,
short and duplicated tokens included) — `kwStatementScore`, not the
distinct-terms formula of the claim. -/
theorem C4_amended_relevance_formula (query text src : PyStr) (k : Nat)
    (hthr : Frac.lt ⟨3, 10⟩ (kwStatementScore query text) = true) :
    keyword_search [mkStatementPol text src] query k =
      .ok ([mkStatementResult text src (kwStatementScore query text)].take k) := by
  have hres : keywordStatementResult (PyVal.str "P".toList) (pyLower query)
      (PyVal.dict [("text".toList, PyVal.str text), ("source".toList, PyVal.str src)]) =
      Except.ok (some (mkStatementResult text src (kwStatementScore query text))) := by
    show (if Frac.lt ⟨3, 10⟩ (kwStatementScore query text) = true then
        Except.ok (some (mkStatementResult text src (kwStatementScore query text)))
      else Except.ok none) = _
    rw [if_pos hthr]
  have hloop : keywordStatementLoop (PyVal.str "P".toList) (pyLower query)
      [PyVal.dict [("text".toList, PyVal.str text), ("source".toList, PyVal.str src)]] =
      Except.ok [mkStatementResult text src (kwStatementScore query text)] := by
    unfold keywordStatementLoop
    rw [hres]
    rfl
  have hall : keywordAllResults [mkStatementPol text src] query =
      Except.ok [mkStatementResult text src (kwStatementScore query text)] := by
    show ((keywordStatementLoop (PyVal.str "P".toList) (pyLower query)
        [PyVal.dict [("text".toList, PyVal.str text), ("source".toList, PyVal.str src)]] >>=
      fun r2 => pure ([] ++ r2)) >>=
      fun r => (keywordPolLoop (pyLower query) query [] >>=
        fun more => pure (r ++ more))) = _
    rw [hloop]
    rfl
  unfold keyword_search
  rw [hall]
  rfl

/-- C4 amended-theorem witness: the spec scenario query "trade tariffs"
against "The senator discussed new tariffs on trade." clears the threshold
(score 2/2) and the theorem applies. -/
theorem C4_amended_relevance_formula_witness :
    Frac.lt ⟨3, 10⟩ (kwStatementScore "trade tariffs".toList
        "The senator discussed new tariffs on trade.".toList) = true ∧
    keyword_search [mkStatementPol "The senator discussed new tariffs on trade.".toList
        "press".toList] "trade tariffs".toList 5 =
      .ok ([mkStatementResult "The senator discussed new tariffs on trade.".toList
        "press".toList (kwStatementScore "trade tariffs".toList
          "The senator discussed new tariffs on trade.".toList)].take 5) :=
  ⟨by decide, C4_amended_relevance_formula "trade tariffs".toList
    "The senator discussed new tariffs on trade.".toList "press".toList 5 (by decide)⟩


/-! ### C5: ranking order, top-k cut, stable ties -/

/-- One-statement corpus on which both search modes fire: the statement
matches the query as a keyword (score 1/1) and its stored embedding equals
the query embedding (cosine 1 > 0.5). -/
def c5stmt : PyVal :=
  .dict [("text".toList, .str "The senator discussed new tariffs on trade.".toList),
         ("source".toList, .str "press".toList)]

def c5pol : PyVal :=
  .dict [("name".toList, .str "Jane Smith".toList),
         ("content".toList, .dict [("statements".toList, .list [c5stmt])]),
         ("semantic_index".toList, .dict [("statement_embeddings".toList,
            .list [.list [.num ⟨1, 1⟩]])])]

def c5pols : List PyVal := [c5pol]

def c5query : PyStr := "tariffs".toList

def c5qEmb : List Frac := [⟨1, 1⟩]

def c5allK : List Result := (keywordAllResults c5pols c5query).toOption.getD []

def c5resK : List Result := (keyword_search c5pols c5query 5).toOption.getD []

def c5allS : List Result := (searchAllResults c5pols c5query c5qEmb).toOption.getD []

def c5resS : List Result := (search c5pols (some c5qEmb) c5query 5).toOption.getD []

/-- C5: whenever `keyword_search` or `search` returns a result list, that
list is sorted by relevance descending (adjacent pairs satisfy `RD`), holds
at most `top_k` results (the default is the literal 5 in the signatures of
`keyword_search` and `search`), and, restricted to any one relevance value,
is a sublist of the pre-sort traversal-order list `all_results` — the
stable tie-break: equal-relevance results keep their original entry order,
so repeated runs with identical scores are deterministic. -/
theorem C5_results_sorted_bounded_stable
    {politicians : List PyVal} {query : PyStr} {qEmb : List Frac} {k : Nat}
    {allK resK allS resS : List Result}
    (hq : ∀ f ∈ qEmb, f.wf)
    (hallK : keywordAllResults politicians query = .ok allK)
    (hresK : keyword_search politicians query k = .ok resK)
    (hallS : searchAllResults politicians query qEmb = .ok allS)
    (hresS : search politicians (some qEmb) query k = .ok resS) :
    (resK.Chain' RD ∧ resK.length ≤ k ∧
      ∀ v : PyFloat, v.valid →
        (resK.filter (pEq v)).Sublist (allK.filter (pEq v))) ∧
    (resS.Chain' RD ∧ resS.length ≤ k ∧
      ∀ v : PyFloat, v.valid →
        (resS.filter (pEq v)).Sublist (allS.filter (pEq v))) := by
  have hvK : ∀ r ∈ allK, r.relevance.valid :=
    fun r hr => (keywordAllResults_ok hallK r hr).1
  have hvS : ∀ r ∈ allS, r.relevance.valid :=
    searchAllResults_valid hq hallS
  have heK : resK = (sortByRelevance allK).take k := by
    unfold keyword_search at hresK
    rw [bind_ok_iff] at hresK
    obtain ⟨all, hall, hresK⟩ := hresK
    rw [hallK] at hall
    cases hall
    rw [pure_ok_iff] at hresK
    exact hresK
  have heS : resS = (sortByRelevance allS).take k := by
    unfold search at hresS
    dsimp only at hresS
    rw [bind_ok_iff] at hresS
    obtain ⟨all, hall, hresS⟩ := hresS
    rw [hallS] at hall
    cases hall
    rw [pure_ok_iff] at hresS
    exact hresS
  subst heK heS
  refine ⟨⟨?_, ?_, ?_⟩, ⟨?_, ?_, ?_⟩⟩
  · exact (chain'_sortByRelevance hvK).take _
  · exact List.length_take_le k _
  · intro v hv
    have hs := (List.take_sublist k (sortByRelevance allK)).filter (pEq v)
    rwa [filter_sortByRelevance hv hvK] at hs
  · exact (chain'_sortByRelevance hvS).take _
  · exact List.length_take_le k _
  · intro v hv
    have hs := (List.take_sublist k (sortByRelevance allS)).filter (pEq v)
    rwa [filter_sortByRelevance hv hvS] at hs

/-- C5 witness: on the one-statement corpus both searches succeed; the
theorem applies at `top_k = 5` with the concrete result lists. -/
theorem C5_results_sorted_bounded_stable_witness :
    keywordAllResults c5pols c5query = .ok c5allK ∧
    keyword_search c5pols c5query 5 = .ok c5resK ∧
    searchAllResults c5pols c5query c5qEmb = .ok c5allS ∧
    search c5pols (some c5qEmb) c5query 5 = .ok c5resS ∧
    ((c5resK.Chain' RD ∧ c5resK.length ≤ 5 ∧
        ∀ v : PyFloat, v.valid →
          (c5resK.filter (pEq v)).Sublist (c5allK.filter (pEq v))) ∧
      (c5resS.Chain' RD ∧ c5resS.length ≤ 5 ∧
        ∀ v : PyFloat, v.valid →
          (c5resS.filter (pEq v)).Sublist (c5allS.filter (pEq v)))) :=
  ⟨rfl, rfl, rfl, rfl,
    @C5_results_sorted_bounded_stable c5pols c5query c5qEmb 5 c5allK c5resK c5allS c5resS
      (by decide) rfl rfl rfl rfl⟩


/-! ### C10: categories reachable by each search mode -/

/-- The type tags of a successful result list (an error yields `[]`). -/
def resultTypes (e : Except PyErr (List Result)) : List PyStr :=
  match e with
  | .ok l => l.map Result.type
  | .error _ => []

/-- A corpus holding all four content categories, each matching the query
both lexically and semantically. -/
def c10news : PyVal :=
  .dict [("title".toList, .str "Alpha news".toList),
         ("content".toList, .str "Alpha beta gamma.".toList),
         ("source".toList, .str "wire".toList),
         ("url".toList, .str "u".toList),
         ("published_date".toList, .str "2020".toList)]

def c10stmt : PyVal :=
  .dict [("text".toList, .str "Alpha delta.".toList),
         ("source".toList, .str "press".toList)]

def c10speech : PyVal :=
  .dict [("text".toList, .str "Alpha epsilon.".toList),
         ("source".toList, .str "floor".toList)]

def c10pol : PyVal :=
  .dict [("name".toList, .str "P".toList),
         ("content".toList, .dict
           [("news_mentions".toList, .list [c10news]),
            ("statements".toList, .list [c10stmt]),
            ("speeches".toList, .list [c10speech])]),
         ("biographical_summary".toList, .str "Alpha zeta.".toList),
         ("semantic_index".toList, .dict
           [("news_embeddings".toList, .list [.list [.num ⟨1, 1⟩]]),
            ("statement_embeddings".toList, .list [.list [.num ⟨1, 1⟩]]),
            ("speech_embeddings".toList, .list [.list [.num ⟨1, 1⟩]]),
            ("bio_embedding".toList, .list [.num ⟨1, 1⟩])])]

def c10resK : List Result := (keyword_search [c10pol] "alpha".toList 5).toOption.getD []

/-- C10: every result any `keyword_search` run returns is tagged "news" or
"statement" — the keyword loop never reads speeches or the biography —
while on the four-category corpus the semantic `search` returns all four
type tags. -/
theorem C10_keyword_never_speech_or_bio :
    (∀ (politicians : List PyVal) (query : PyStr) (k : Nat) (res : List Result),
        keyword_search politicians query k = .ok res →
        ∀ r ∈ res, r.type = "news".toList ∨ r.type = "statement".toList) ∧
    resultTypes (search [c10pol] (some [⟨1, 1⟩]) "alpha".toList 10) =
      ["news".toList, "statement".toList, "speech".toList, "bio".toList] := by
  constructor
  · intro politicians query k res h r hr
    unfold keyword_search at h
    rw [bind_ok_iff] at h
    obtain ⟨all, hall, h⟩ := h
    rw [pure_ok_iff] at h
    subst h
    have hmem : r ∈ sortByRelevance all := (List.take_sublist k _).subset hr
    exact (keywordAllResults_ok hall r (mem_sortByRelevance.1 hmem)).2
  · rfl

/-- C10 witness: on the four-category corpus the keyword search succeeds
and the theorem confines its results to the two reachable tags. -/
theorem C10_keyword_never_speech_or_bio_witness :
    keyword_search [c10pol] "alpha".toList 5 = .ok c10resK ∧
    (∀ r ∈ c10resK, r.type = "news".toList ∨ r.type = "statement".toList) :=
  ⟨rfl, C10_keyword_never_speech_or_bio.1 [c10pol] "alpha".toList 5 c10resK rfl⟩

end AIPol
